import Mathlib

/-!
# OEM path driver and its standardisation transform

A shallow embedding of `src/DataStd_nostdy.h` (class `DataStd`) and
`src/oem_call.cpp` (`write_beta_matrix`, `oem_fit`).

Conventions of the embedding.

* A C++ `double` is an element of a field `α`; rounding, infinities and NaN are not
  modelled.  `std::sqrt`, `std::log` and `std::exp` are passed in as functions, so every
  definition is computable (run it over `ℚ`) and the theorems that need the analytic laws
  take `α = ℝ` with `Real.sqrt`, `Real.log`, `Real.exp`.
* An Eigen dense vector or array is a `List α`; an Eigen matrix is the list of its columns
  (Eigen stores matrices column-major and the code only ever touches whole columns).
* An `Eigen::SparseVector` is its size together with the stored `(index, value)` pairs in
  the order the `InnerIterator` visits them.
* Division is the division of the field, which is total; that a divisor is not zero is a
  statement of its own wherever the code relies on it (`scaleX[i]`).  `recoverChecked` and
  `recoverSparseChecked` are `recover` with its quotients partial: no value when a divisor
  is zero.
* `for (int i = 0; i < p; i++) body` is `forLoop p body`.
* The code compiled without `__AVX__` (the portable `#else` branches) is the code embedded.
* The solver behind `oem_fit` is a parameter; a run of `oem_fit` records the calls it makes
  on the solver, and ends either by returning or by a call through the `NULL` pointer.
  `recordCalls S` is the solver `S` keeping its own log of the calls it receives.
-/

namespace OEM

/-! ## Data -/

/-- The loop `for (int i = 0; i < k; i++) s = body i s`. -/
def forLoop {σ : Type} : Nat → (Nat → σ → σ) → σ → σ
  | 0, _, s => s
  | k + 1, body, s => body k (forLoop k body s)

/-- The data members of `DataStd`. -/
structure DataStd (α : Type) where
  flag : Nat
  n : Nat
  p : Nat
  meanY : α
  scaleY : α
  meanX : List α
  scaleX : List α

/-- The result of `DataStd::standardize`: the object and the two arguments it mutates. -/
structure Standardized (α : Type) where
  ds : DataStd α
  X : List (List α)
  Y : List α

/-- An `Eigen::SparseVector<double>`: its size and the stored entries, in iteration order. -/
structure SpVec (α : Type) where
  size : Nat
  entries : List (Nat × α)

/-- Column `i` of a matrix, `X.col(i)`. -/
def col {α : Type} (X : List (List α)) (i : Nat) : List α := X.getD i []

/-- The common shape of the six loop bodies of `standardize`: column `i` is read, an
optional mean and an optional scale computed from it are stored at index `i`, and column
`i` is replaced. -/
def genBody {α : Type} (mean scale : Option (List α → α)) (g : List α → List α) (i : Nat)
    (s : DataStd α × List (List α)) : DataStd α × List (List α) :=
  ({ s.1 with
      meanX := match mean with
        | some f => s.1.meanX.set i (f (col s.2 i))
        | none => s.1.meanX
      scaleX := match scale with
        | some f => s.1.scaleX.set i (f (col s.2 i))
        | none => s.1.scaleX },
    s.2.set i (g (col s.2 i)))

/-! ## Data of `oem_call.cpp` -/

/-- An `Eigen::SparseMatrix<double>`: its shape and the inserted `(row, col, value)`
entries, in insertion order. -/
structure SpMat (α : Type) where
  rows : Nat
  cols : Nat
  entries : List (Nat × Nat × α)

/-- The statement `betas.insert(row, col) = value`. -/
def SpMat.insert {α : Type} (betas : SpMat α) (row col : Nat) (value : α) : SpMat α :=
  { betas with entries := betas.entries ++ [(row, col, value)] }

/-- The function `write_beta_matrix`. -/
def write_beta_matrix {α : Type} (betas : SpMat α) (col : Nat) (beta0 : α) (coef : SpVec α)
    (startatzero : Bool) : SpMat α :=
  let add := if !startatzero then 1 else 0
  let betas := if !startatzero then betas.insert 0 col beta0 else betas
  coef.entries.foldl (fun b e => b.insert (e.1 + add) col e.2) betas

/-- An `Rcpp::NumericMatrix`: `rows()`, `cols()` and the data, column by column. -/
structure NumericMatrix (α : Type) where
  nrow : Nat
  ncol : Nat
  data : List (List α)

/-- The fields of the `opts` list that `oem_fit` reads. -/
structure Opts (α : Type) where
  maxit : Int
  irls_maxit : Int
  irls_tol : α
  tol : α

/-- A call that `oem_fit` makes through the `solver` pointer. -/
inductive Call (α : Type) where
  | get_lambda_zero : Call α
  | init (lambda : α) : Call α
  | init_warm (lambda : α) : Call α
  | solve (maxit : Int) : Call α
  | get_gamma : Call α

/-- Whether a call is the cold `init`. -/
def Call.isInit {α : Type} : Call α → Bool
  | Call.init _ => true
  | _ => false

/-- Whether a call is `init_warm`. -/
def Call.isInitWarm {α : Type} : Call α → Bool
  | Call.init_warm _ => true
  | _ => false

/-- The solver class behind `oemBase<VectorXd, MatrixXd> *solver`.  The classes `oemBase`
and `oem` (header `oem.h`) are not among the sources, so the solver is a parameter: a state
type `σ`, the constructor `new oem(X, Y, penalty_factor, tol)` and the five member functions
`oem_fit` calls, each of which may change the solver. -/
structure Solver (σ α : Type) where
  create : List (List α) → List α → List α → α → σ
  get_lambda_zero : σ → α × σ
  init : α → σ → σ
  init_warm : α → σ → σ
  solve : Int → σ → Int × σ
  get_gamma : σ → SpVec α × σ

/-- The locals of `oem_fit` once the `solver` pointer has been set (or left `NULL`, which is
`none`). -/
structure Prepared (σ α : Type) where
  n : Nat
  p : Nat
  fullbetamat : Bool
  penalty_factor : List α
  datstd : DataStd α
  X : List (List α)
  Y : List α
  solver : Option σ

/-- The state the loop over the penalties carries. -/
structure LoopState (σ α : Type) where
  solver : σ
  trace : List (Call α)
  beta : SpMat α
  niter : List Int

/-- The list `oem_fit` returns. -/
structure FitResult (α : Type) where
  lambda : List α
  beta : SpMat α
  niter : List Int

/-- How a run of `oem_fit` ends: it returns its list, or it calls a member function through
the `NULL` solver pointer (undefined behaviour in C++; the call attempted is recorded). -/
inductive Outcome (α : Type) where
  | returned (r : FitResult α) : Outcome α
  | nullSolverCall (attempted : Call α) : Outcome α

/-- A run of `oem_fit`: the calls made on a solver object, in order, and how the run ends. -/
structure Run (α : Type) where
  trace : List (Call α)
  outcome : Outcome α

/-! ## Eigen reductions -/

section Arith

variable {α : Type} [Field α] [DecidableEq α]

/-- Eigen `v.sum()`. -/
def vsum (v : List α) : α := v.sum

/-- Eigen `v.mean()`: the sum of the entries over the number of entries. -/
def vmean (v : List α) : α := vsum v / (v.length : α)

/-- Eigen `v.norm()`: the square root of the sum of the squared entries. -/
def vnorm (sqrt : α → α) (v : List α) : α := sqrt (vsum (v.map (fun x => x * x)))

/-- The expression `(v.array() * wts.array().sqrt()).matrix()`. -/
def timesSqrtWts (sqrt : α → α) (v wts : List α) : List α :=
  List.zipWith (fun x w => x * sqrt w) v wts

/-! ## `DataStd` -/

/-- The function `DataStd::sd_n`, portable branch: the mean is computed and dropped, the
vector is not centred, and the result is `v.norm() / sqrt(double(v.size()))`. -/
def sd_n (sqrt : α → α) (v : List α) : α :=
  let _mean := vmean v
  let v_centered := v
  vnorm sqrt v_centered / sqrt (v.length : α)

/-- The constructor `DataStd(n_, p_, standardize, intercept)`.  `resize(p)` leaves the
entries unspecified; they are zero here, and `standardize` overwrites each of them. -/
def DataStd.new (n_ p_ : Nat) (standardize intercept : Bool) : DataStd α :=
  let flag := (if standardize then 1 else 0) + 2 * (if intercept then 1 else 0)
  { flag := flag
    n := n_
    p := p_
    meanY := 0
    scaleY := 1
    meanX := if flag = 3 ∨ flag = 2 then List.replicate p_ 0 else []
    scaleX := if flag = 3 ∨ flag = 1 then List.replicate p_ 0 else [] }

/-- The accessor `DataStd::get_scaleY`. -/
def DataStd.get_scaleY (ds : DataStd α) : α := ds.scaleY

/-- The body of `case 3:` of the switch on `flag` that treats `Y`, up to and including
`Y.array() /= scaleY`. -/
def standardizeY_case3 (sqrt : α → α) (ds : DataStd α) (Y wts : List α) :
    DataStd α × List α :=
  let wt_len := wts.length
  let meanY := if wt_len ≠ 0 then vmean (timesSqrtWts sqrt Y wts) else vmean Y
  let Y1 := Y.map (fun y => y - 0 * meanY)
  let scaleY : α := 1
  ({ ds with meanY := meanY, scaleY := scaleY }, Y1.map (fun y => y / scaleY))

/-- The first switch of `DataStd::standardize` ("standardize Y").  `case 2:` has no `break`
and falls through into `case 3:`. -/
def standardizeY (sqrt : α → α) (ds : DataStd α) (Y wts : List α) : DataStd α × List α :=
  let wt_len := wts.length
  match ds.flag with
  | 1 =>
    let scaleY : α := 1
    ({ ds with scaleY := scaleY }, Y.map (fun y => y / scaleY))
  | 2 =>
    let meanY := if wt_len ≠ 0 then vmean (timesSqrtWts sqrt Y wts) else vmean Y
    let Y1 := Y.map (fun y => y - 0 * meanY)
    standardizeY_case3 sqrt { ds with meanY := meanY, scaleY := 1 } Y1 wts
  | 3 => standardizeY_case3 sqrt ds Y wts
  | _ => (ds, Y)

/-- Loop body, weights present, `case 1`. -/
def bodyW1 (sqrt : α → α) (wts : List α) (i : Nat) (s : DataStd α × List (List α)) :
    DataStd α × List (List α) :=
  let sx := sd_n sqrt (timesSqrtWts sqrt (col s.2 i) wts)
  let sx := if sx = 0 then 1 else sx
  ({ s.1 with scaleX := s.1.scaleX.set i sx }, s.2.set i ((col s.2 i).map (fun x => x * (1 / sx))))

/-- Loop body, weights present, `case 2`. -/
def bodyW2 (sqrt : α → α) (wts : List α) (i : Nat) (s : DataStd α × List (List α)) :
    DataStd α × List (List α) :=
  let mx := vmean (timesSqrtWts sqrt (col s.2 i) wts)
  ({ s.1 with meanX := s.1.meanX.set i mx }, s.2.set i ((col s.2 i).map (fun x => x - 0 * mx)))

/-- Loop body, weights present, `case 3`, portable branch: the weights are not used and
there is no test of `scaleX[i]` against zero. -/
def bodyW3 (sqrt : α → α) (n_invsqrt : α) (i : Nat) (s : DataStd α × List (List α)) :
    DataStd α × List (List α) :=
  let mx := vmean (col s.2 i)
  let c1 := (col s.2 i).map (fun x => x - 0 * mx)
  let sx := vnorm sqrt c1 * n_invsqrt
  ({ s.1 with meanX := s.1.meanX.set i mx, scaleX := s.1.scaleX.set i sx },
    s.2.set i (c1.map (fun x => x / sx)))

/-- Loop body, weights absent, `case 1`. -/
def bodyU1 (sqrt : α → α) (i : Nat) (s : DataStd α × List (List α)) :
    DataStd α × List (List α) :=
  let sx := sd_n sqrt (col s.2 i)
  let sx := if sx = 0 then 1 else sx
  ({ s.1 with scaleX := s.1.scaleX.set i sx }, s.2.set i ((col s.2 i).map (fun x => x * (1 / sx))))

/-- Loop body, weights absent, `case 2`. -/
def bodyU2 (i : Nat) (s : DataStd α × List (List α)) : DataStd α × List (List α) :=
  let mx := vmean (col s.2 i)
  ({ s.1 with meanX := s.1.meanX.set i mx }, s.2.set i ((col s.2 i).map (fun x => x - 0 * mx)))

/-- Loop body, weights absent, `case 3`, portable branch. -/
def bodyU3 (sqrt : α → α) (n_invsqrt : α) (i : Nat) (s : DataStd α × List (List α)) :
    DataStd α × List (List α) :=
  let mx := vmean (col s.2 i)
  let c1 := (col s.2 i).map (fun x => x - 0 * mx)
  let sx := vnorm sqrt c1 * n_invsqrt
  let sx := if sx = 0 then 1 else sx
  ({ s.1 with meanX := s.1.meanX.set i mx, scaleX := s.1.scaleX.set i sx },
    s.2.set i (c1.map (fun x => x / sx)))

/-- The second part of `DataStd::standardize` ("standardize X"). -/
def standardizeX (sqrt : α → α) (ds : DataStd α) (X : List (List α)) (wts : List α) :
    DataStd α × List (List α) :=
  let n_invsqrt : α := 1 / sqrt (ds.n : α)
  let wt_len := wts.length
  if wt_len ≠ 0 then
    match ds.flag with
    | 1 => forLoop ds.p (bodyW1 sqrt wts) (ds, X)
    | 2 => forLoop ds.p (bodyW2 sqrt wts) (ds, X)
    | 3 => forLoop ds.p (bodyW3 sqrt n_invsqrt) (ds, X)
    | _ => (ds, X)
  else
    match ds.flag with
    | 1 => forLoop ds.p (bodyU1 sqrt) (ds, X)
    | 2 => forLoop ds.p bodyU2 (ds, X)
    | 3 => forLoop ds.p (bodyU3 sqrt n_invsqrt) (ds, X)
    | _ => (ds, X)

/-- The method `DataStd::standardize(X, Y, wts)`; an empty `wts` means no weights. -/
def DataStd.standardize (sqrt : α → α) (ds : DataStd α) (X : List (List α)) (Y wts : List α) :
    Standardized α :=
  let r := standardizeY sqrt ds Y wts
  let s := standardizeX sqrt r.1 X wts
  { ds := s.1, X := s.2, Y := r.2 }

/-- The method `DataStd::recover(double &beta0, ArrayRef coef)`, the dense form; the result
is the new `beta0` and the new `coef`. -/
def DataStd.recover (ds : DataStd α) (beta0 : α) (coef : List α) : α × List α :=
  match ds.flag with
  | 0 => (0, coef)
  | 1 =>
    let coef := List.zipWith (fun c s => c / s) coef ds.scaleX
    let coef := coef.map (fun c => c * ds.scaleY)
    (0, coef)
  | 2 =>
    let coef := coef.map (fun c => c * ds.scaleY)
    (ds.meanY - vsum (List.zipWith (fun c m => c * m) coef ds.meanX), coef)
  | 3 =>
    let coef := List.zipWith (fun c s => c / s) coef ds.scaleX
    let coef := coef.map (fun c => c * ds.scaleY)
    (ds.meanY - vsum (List.zipWith (fun c m => c * m) coef ds.meanX), coef)
  | _ => (beta0, coef)

/-- The entry `arr[i]` of an Eigen array. -/
def arrAt (arr : List α) (i : Nat) : α := arr.getD i 0

/-- The function `DataStd::elementwise_quot`: every stored value is divided by
`arr[index]`. -/
def elementwise_quot (spvec : SpVec α) (arr : List α) : SpVec α :=
  { spvec with entries := spvec.entries.map (fun e => (e.1, e.2 / arrAt arr e.1)) }

/-- The function `DataStd::sparse_inner_product`. -/
def sparse_inner_product (spvec : SpVec α) (arr : List α) : α :=
  spvec.entries.foldl (fun res e => res + e.2 * arrAt arr e.1) 0

/-- The statement `coef *= scaleY` on a sparse vector: every stored value is multiplied. -/
def SpVec.scale (spvec : SpVec α) (c : α) : SpVec α :=
  { spvec with entries := spvec.entries.map (fun e => (e.1, e.2 * c)) }

/-- The method `DataStd::recover(double &beta0, SparseVector &coef)`, the sparse form. -/
def DataStd.recoverSparse (ds : DataStd α) (beta0 : α) (coef : SpVec α) : α × SpVec α :=
  match ds.flag with
  | 0 => (0, coef)
  | 1 =>
    let coef := elementwise_quot coef ds.scaleX
    let coef := coef.scale ds.scaleY
    (0, coef)
  | 2 =>
    let coef := coef.scale ds.scaleY
    (ds.meanY - sparse_inner_product coef ds.meanX, coef)
  | 3 =>
    let coef := elementwise_quot coef ds.scaleX
    let coef := coef.scale ds.scaleY
    (ds.meanY - sparse_inner_product coef ds.meanX, coef)
  | _ => (beta0, coef)

/-- The coefficient a sparse vector holds at index `i`: the stored value, or zero. -/
def SpVec.coeff (spvec : SpVec α) (i : Nat) : α :=
  match spvec.entries.find? (fun e => e.1 == i) with
  | some e => e.2
  | none => 0

/-- The dense vector with the same logical values as a sparse vector. -/
def SpVec.toDense (spvec : SpVec α) : List α :=
  (List.range spvec.size).map spvec.coeff

/-- Well-formedness of a sparse vector: the stored indices increase strictly and are
below the size. -/
def SpVec.WF (spvec : SpVec α) : Prop :=
  (spvec.entries.map Prod.fst).Pairwise (· < ·) ∧ ∀ e ∈ spvec.entries, e.1 < spvec.size

/-- The scale stored for a column in mode 1 without weights: `sd_n` of the column, or 1
when that is exactly zero. -/
def scaleU1 (sqrt : α → α) (c : List α) : α :=
  if sd_n sqrt c = 0 then 1 else sd_n sqrt c

/-- The scale stored for a column in mode 1 with weights. -/
def scaleW1 (sqrt : α → α) (wts c : List α) : α :=
  if sd_n sqrt (timesSqrtWts sqrt c wts) = 0 then 1 else sd_n sqrt (timesSqrtWts sqrt c wts)

/-- The value `X.col(i).norm() * n_invsqrt` of mode 3, taken after `0 * meanX[i]` has
been subtracted from the column. -/
def rawScale3 (sqrt : α → α) (n_invsqrt : α) (c : List α) : α :=
  vnorm sqrt (c.map (fun x => x - 0 * vmean c)) * n_invsqrt

/-- The scale stored for a column in mode 3 without weights: `rawScale3`, or 1 when that
is exactly zero. -/
def scaleU3 (sqrt : α → α) (n_invsqrt : α) (c : List α) : α :=
  if rawScale3 sqrt n_invsqrt c = 0 then 1 else rawScale3 sqrt n_invsqrt c

/-- The scale that mode 3 stores for a column: guarded against zero without weights, not
guarded with weights. -/
def scale3 (sqrt : α → α) (n_invsqrt : α) (wts : List α) : List α → α :=
  if wts.length ≠ 0 then rawScale3 sqrt n_invsqrt else scaleU3 sqrt n_invsqrt

/-- The scale that mode 1 stores for a column, with or without weights. -/
def scale1 (sqrt : α → α) (wts : List α) : List α → α :=
  if wts.length ≠ 0 then scaleW1 sqrt wts else scaleU1 sqrt

/-- The mean that mode 2 stores for a column, with or without weights. -/
def mean2 (sqrt : α → α) (wts : List α) : List α → α :=
  if wts.length ≠ 0 then (fun c => vmean (timesSqrtWts sqrt c wts)) else vmean

/-! ## `oem_call.cpp` -/

/-- The conversion of a penalty to the solver's scale in `oem_fit`:
`ilambda = lambda[i] * n / datstd.get_scaleY()`. -/
def ilambdaOf (lambda_i : α) (n : Nat) (scaleY : α) : α := lambda_i * (n : α) / scaleY

/-- Modelled from the spec: Eigen's `setLinSpaced(size, low, high)` is library code outside
the repository; it gives `size` values equally spaced from `low` to `high` inclusive,
`low + i * (high - low) / (size - 1)`, and the single value `high` when `size` is 1. -/
def setLinSpaced (size : Nat) (low high : α) : List α :=
  if size = 1 then [high]
  else (List.range size).map
    (fun (i : Nat) => low + (i : α) * ((high - low) / ((size - 1 : Nat) : α)))

/-- The first part of `oem_fit`: the copies of the inputs, the family dispatch, the
transform and the construction of the solver.  The driver calls `datstd.standardize(X, Y)`;
the transform among the sources takes a weight vector too and is called with an empty one. -/
def oem_prepare {σ : Type} (S : Solver σ α) (sqrt : α → α) (xx : NumericMatrix α)
    (yy : List α) (family : String) (penalty_factor_ : List α) (standardize_ intercept_ : Bool)
    (opts : Opts α) : Prepared σ α :=
  let n := xx.nrow
  let p := xx.ncol
  let X := xx.data
  let Y := yy
  let intercept_bin := intercept_
  let nonGaussian : Bool := family != "gaussian"
  let standardize := if nonGaussian then false else standardize_
  let intercept := if nonGaussian then false else intercept_
  let augment : Bool := nonGaussian && intercept_bin
  let fullbetamat := augment
  let add := if augment then 1 else 0
  let penalty_factor := if augment then 0 :: penalty_factor_ else penalty_factor_
  let X := if augment then List.replicate n 1 :: X else X
  let datstd : DataStd α := DataStd.new n (p + add) standardize intercept
  let st := datstd.standardize sqrt X Y []
  let solver : Option σ :=
    if n > 2 * p then
      if family = "gaussian" then some (S.create st.X st.Y penalty_factor opts.tol)
      else if family = "binomial" then none
      else none
    else
      if family = "gaussian" then none
      else if family = "binomial" then none
      else none
  { n := n, p := p, fullbetamat := fullbetamat, penalty_factor := penalty_factor,
    datstd := st.ds, X := st.X, Y := st.Y, solver := solver }

/-- One iteration of the loop `for (int i = 0; i < nlambda; i++)` of `oem_fit`. -/
def oem_loop_body {σ : Type} (S : Solver σ α) (P : Prepared σ α) (lambda : List α)
    (maxit : Int) (i : Nat) (st : LoopState σ α) : LoopState σ α :=
  let ilambda := ilambdaOf (arrAt lambda i) P.n P.datstd.get_scaleY
  let s1 := if i = 0 then S.init ilambda st.solver else S.init_warm ilambda st.solver
  let c1 := if i = 0 then Call.init ilambda else Call.init_warm ilambda
  let r2 := S.solve maxit s1
  let r3 := S.get_gamma r2.2
  let rec0 : α × SpVec α := (0, r3.1)
  let rec1 := if !P.fullbetamat then P.datstd.recoverSparse rec0.1 rec0.2 else rec0
  { solver := r3.2
    trace := st.trace ++ [c1, Call.solve maxit, Call.get_gamma]
    beta := write_beta_matrix st.beta i rec1.1 rec1.2 P.fullbetamat
    niter := st.niter.set i r2.1 }

/-- The function `oem_fit`.  With `solver == NULL` the first statement that uses the pointer
is `solver->get_lambda_zero()` when no penalty was supplied and `solver->init(ilambda)` at
`i = 0` otherwise. -/
def oem_fit {σ : Type} (S : Solver σ α) (sqrt exp log : α → α) (xx : NumericMatrix α)
    (yy : List α) (family : String) (lambda_ : List α) (nlambda_ : Nat) (lmin_ratio_ : α)
    (penalty_factor_ : List α) (standardize_ intercept_ : Bool) (opts : Opts α) : Run α :=
  let P := oem_prepare S sqrt xx yy family penalty_factor_ standardize_ intercept_ opts
  let nlambda := lambda_.length
  match P.solver with
  | none =>
    if nlambda < 1 then { trace := [], outcome := Outcome.nullSolverCall Call.get_lambda_zero }
    else
      { trace := []
        outcome := Outcome.nullSolverCall
          (Call.init (ilambdaOf (arrAt lambda_ 0) P.n P.datstd.get_scaleY)) }
  | some s0 =>
    let gen : List α × σ × List (Call α) :=
      if nlambda < 1 then
        let r := S.get_lambda_zero s0
        let lmax := r.1 / (P.n : α) * P.datstd.get_scaleY
        let lmin := lmin_ratio_ * lmax
        ((setLinSpaced nlambda_ (log lmax) (log lmin)).map exp, r.2, [Call.get_lambda_zero])
      else (lambda_, s0, [])
    let lambda := gen.1
    let nlambda := lambda.length
    let beta : SpMat α := { rows := P.p + 1, cols := nlambda, entries := [] }
    let st := forLoop nlambda (oem_loop_body S P lambda opts.maxit)
      { solver := gen.2.1, trace := gen.2.2, beta := beta, niter := List.replicate nlambda 0 }
    { trace := st.trace, outcome := Outcome.returned ⟨lambda, st.beta, st.niter⟩ }

/-- The coefficient `betas.coeff(row, col)` of a sparse matrix: the inserted value, or
zero. -/
def SpMat.coeff (betas : SpMat α) (row col : Nat) : α :=
  match betas.entries.find? (fun e => e.1 == row && e.2.1 == col) with
  | some e => e.2.2
  | none => 0

/-- The vector `solver->get_gamma()` returns in iteration `i` of the loop of `oem_fit`,
entered in state `st`. -/
def oem_gamma {σ : Type} (S : Solver σ α) (P : Prepared σ α) (lambda : List α) (maxit : Int)
    (i : Nat) (st : LoopState σ α) : SpVec α :=
  let ilambda := ilambdaOf (arrAt lambda i) P.n P.datstd.get_scaleY
  let s1 := if i = 0 then S.init ilambda st.solver else S.init_warm ilambda st.solver
  (S.get_gamma (S.solve maxit s1).2).1

/-- The penalties `oem_fit` uses and the state in which it enters its loop, for a
constructed solver `s0`: the penalties supplied, or the generated ones. -/
def oem_start {σ : Type} (S : Solver σ α) (exp log : α → α) (P : Prepared σ α)
    (lambda_ : List α) (nlambda_ : Nat) (lmin_ratio_ : α) (s0 : σ) :
    List α × LoopState σ α :=
  let gen : List α × σ × List (Call α) :=
    if lambda_.length < 1 then
      let r := S.get_lambda_zero s0
      let lmax := r.1 / (P.n : α) * P.datstd.get_scaleY
      let lmin := lmin_ratio_ * lmax
      ((setLinSpaced nlambda_ (log lmax) (log lmin)).map exp, r.2, [Call.get_lambda_zero])
    else (lambda_, s0, [])
  (gen.1,
    { solver := gen.2.1, trace := gen.2.2
      beta := { rows := P.p + 1, cols := gen.1.length, entries := [] }
      niter := List.replicate gen.1.length 0 })

/-- The pair `(beta0, res)` of iteration `i` of the loop of `oem_fit` after
`datstd.recover(beta0, res)`, for a loop entered in state `st`. -/
def oem_recovered {σ : Type} (S : Solver σ α) (P : Prepared σ α) (lambda : List α)
    (maxit : Int) (i : Nat) (st : LoopState σ α) : α × SpVec α :=
  P.datstd.recoverSparse 0 (oem_gamma S P lambda maxit i st)

/-- The calls the specification lists for the penalties after the first: `init_warm` at
the converted penalty, `solve`, `get_gamma`, for each in turn. -/
def warmCalls (n : Nat) (scaleY : α) (maxit : Int) : List α → List (Call α)
  | [] => []
  | l :: rest =>
    Call.init_warm (l * (n : α) / scaleY) :: Call.solve maxit :: Call.get_gamma ::
      warmCalls n scaleY maxit rest

/-- The call trace as the specification words it: a cold `init` for the first penalty, then
`warmCalls` for the later ones, each `init` followed by `solve` and `get_gamma`. -/
def specTrace (n : Nat) (scaleY : α) (maxit : Int) : List α → List (Call α)
  | [] => []
  | l :: rest =>
    Call.init (l * (n : α) / scaleY) :: Call.solve maxit :: Call.get_gamma ::
      warmCalls n scaleY maxit rest

/-- A solver with no state, for running the driver on concrete input: it reports
`get_lambda_zero() = 1`, uses every iteration allowed, and returns the empty vector of
size `p`. -/
def demoSolver (p : Nat) : Solver Unit α where
  create := fun _ _ _ _ => ()
  get_lambda_zero := fun s => (1, s)
  init := fun _ s => s
  init_warm := fun _ s => s
  solve := fun maxit s => (maxit, s)
  get_gamma := fun s => ({ size := p, entries := [] }, s)

/-- The dense `recover` with its quotients partial.  `coef /= scaleX` divides `coef[i]` by
`scaleX[i]` at every index; where `scaleX[i]` is zero the quotient has no value (in `double`
it is NaN for `coef[i] = 0` and infinite otherwise, and in case 3 it enters `beta0` through
the sum).  The result is `none` then, and what `recover` returns otherwise. -/
def DataStd.recoverChecked (ds : DataStd α) (beta0 : α) (coef : List α) :
    Option (α × List α) :=
  if (ds.flag = 1 ∨ ds.flag = 3) ∧ (ds.scaleX.take coef.length).any (fun s => decide (s = 0))
  then none
  else some (ds.recover beta0 coef)

/-- The sparse `recover` with its quotients partial.  `elementwise_quot` divides only the
stored values, each by `scaleX[index]`; the result is `none` when `scaleX` is zero at a
stored index, and what the sparse `recover` returns otherwise. -/
def DataStd.recoverSparseChecked (ds : DataStd α) (beta0 : α) (coef : SpVec α) :
    Option (α × SpVec α) :=
  if (ds.flag = 1 ∨ ds.flag = 3) ∧ coef.entries.any (fun e => decide (arrAt ds.scaleX e.1 = 0))
  then none
  else some (ds.recoverSparse beta0 coef)

/-- The solver `S` keeping a log of the calls made on it: the state is the state of `S`
together with the log, the constructor starts with an empty log, and every member function
does what it does in `S` and appends its own call to the log. -/
def recordCalls {σ : Type} (S : Solver σ α) : Solver (σ × List (Call α)) α where
  create := fun X Y penalty_factor tol => (S.create X Y penalty_factor tol, [])
  get_lambda_zero := fun s =>
    ((S.get_lambda_zero s.1).1, ((S.get_lambda_zero s.1).2, s.2 ++ [Call.get_lambda_zero]))
  init := fun lambda s => (S.init lambda s.1, s.2 ++ [Call.init lambda])
  init_warm := fun lambda s => (S.init_warm lambda s.1, s.2 ++ [Call.init_warm lambda])
  solve := fun maxit s =>
    ((S.solve maxit s.1).1, ((S.solve maxit s.1).2, s.2 ++ [Call.solve maxit]))
  get_gamma := fun s => ((S.get_gamma s.1).1, ((S.get_gamma s.1).2, s.2 ++ [Call.get_gamma]))

end Arith

/-! ## Lemmas on loops and vectors -/

section LoopLemmas
variable {α : Type}

theorem forLoop_succ {σ : Type} (k : Nat) (body : Nat → σ → σ) (s : σ) :
    forLoop (k + 1) body s = body k (forLoop k body s) := rfl

theorem col_set_self (X : List (List α)) (i : Nat) (c : List α) (h : i < X.length) :
    col (X.set i c) i = c := by
  simp [col, List.getD_eq_getElem?_getD, h]

theorem col_set_ne (X : List (List α)) (i j : Nat) (c : List α) (h : i ≠ j) :
    col (X.set i c) j = col X j := by
  simp [col, List.getD_eq_getElem?_getD, List.getElem?_set_ne h]

theorem genLoop_length (mean scale : Option (List α → α)) (g : List α → List α)
    (s : DataStd α × List (List α)) (k : Nat) :
    (forLoop k (genBody mean scale g) s).2.length = s.2.length ∧
    (forLoop k (genBody mean scale g) s).1.meanX.length = s.1.meanX.length ∧
    (forLoop k (genBody mean scale g) s).1.scaleX.length = s.1.scaleX.length := by
  induction k with
  | zero => simp [forLoop]
  | succ k ih =>
    obtain ⟨h1, h2, h3⟩ := ih
    rw [forLoop_succ]
    refine ⟨?_, ?_, ?_⟩
    · simp [genBody, h1]
    · cases mean <;> simp [genBody, h2]
    · cases scale <;> simp [genBody, h3]

theorem genLoop_frame (mean scale : Option (List α → α)) (g : List α → List α)
    (s : DataStd α × List (List α)) (k : Nat) :
    (forLoop k (genBody mean scale g) s).1.flag = s.1.flag ∧
    (forLoop k (genBody mean scale g) s).1.n = s.1.n ∧
    (forLoop k (genBody mean scale g) s).1.p = s.1.p ∧
    (forLoop k (genBody mean scale g) s).1.meanY = s.1.meanY ∧
    (forLoop k (genBody mean scale g) s).1.scaleY = s.1.scaleY := by
  induction k with
  | zero => simp [forLoop]
  | succ k ih =>
    rw [forLoop_succ]
    simpa [genBody] using ih

theorem genLoop_col (mean scale : Option (List α → α)) (g : List α → List α)
    (s : DataStd α × List (List α)) (k j : Nat) :
    col (forLoop k (genBody mean scale g) s).2 j =
      if j < k ∧ j < s.2.length then g (col s.2 j) else col s.2 j := by
  induction k with
  | zero => simp [forLoop]
  | succ k ih =>
    rw [forLoop_succ]
    have hlen := (genLoop_length mean scale g s k).1
    by_cases hjk : j = k
    · subst hjk
      have hself : col (forLoop j (genBody mean scale g) s).2 j = col s.2 j := by
        rw [ih]; simp
      by_cases hj : j < s.2.length
      · simp only [genBody]
        rw [col_set_self _ _ _ (by omega), hself]
        simp [hj]
      · simp only [genBody]
        have : (forLoop j (genBody mean scale g) s).2.length ≤ j := by omega
        rw [List.set_eq_of_length_le this, hself]
        simp [hj]
    · simp only [genBody]
      rw [col_set_ne _ _ _ _ (Ne.symm hjk), ih]
      have : (j < k + 1) ↔ j < k := by omega
      simp [this]

theorem genLoop_scaleX_none (mean : Option (List α → α)) (g : List α → List α)
    (s : DataStd α × List (List α)) (k : Nat) :
    (forLoop k (genBody mean none g) s).1.scaleX = s.1.scaleX := by
  induction k with
  | zero => rfl
  | succ k ih => rw [forLoop_succ]; simpa [genBody] using ih

theorem genLoop_meanX_none (scale : Option (List α → α)) (g : List α → List α)
    (s : DataStd α × List (List α)) (k : Nat) :
    (forLoop k (genBody none scale g) s).1.meanX = s.1.meanX := by
  induction k with
  | zero => rfl
  | succ k ih => rw [forLoop_succ]; simpa [genBody] using ih

theorem genLoop_scaleX_some (mean : Option (List α → α)) (f : List α → α)
    (g : List α → List α) (s : DataStd α × List (List α)) (k j : Nat) :
    (forLoop k (genBody mean (some f) g) s).1.scaleX[j]? =
      if j < k ∧ j < s.1.scaleX.length then some (f (col s.2 j)) else s.1.scaleX[j]? := by
  induction k with
  | zero => simp [forLoop]
  | succ k ih =>
    rw [forLoop_succ]
    have hlen := (genLoop_length mean (some f) g s k).2.2
    have hcol : col (forLoop k (genBody mean (some f) g) s).2 k = col s.2 k := by
      rw [genLoop_col]; simp
    simp only [genBody, hcol]
    rw [List.getElem?_set, ih, hlen]
    by_cases hjk : k = j
    · subst hjk
      by_cases hj : k < s.1.scaleX.length
      · simp [hj]
      · simp [hj]; omega
    · have : (j < k + 1) ↔ j < k := by omega
      simp [hjk, this]

theorem genLoop_meanX_some (scale : Option (List α → α)) (f : List α → α)
    (g : List α → List α) (s : DataStd α × List (List α)) (k j : Nat) :
    (forLoop k (genBody (some f) scale g) s).1.meanX[j]? =
      if j < k ∧ j < s.1.meanX.length then some (f (col s.2 j)) else s.1.meanX[j]? := by
  induction k with
  | zero => simp [forLoop]
  | succ k ih =>
    rw [forLoop_succ]
    have hlen := (genLoop_length (some f) scale g s k).2.1
    have hcol : col (forLoop k (genBody (some f) scale g) s).2 k = col s.2 k := by
      rw [genLoop_col]; simp
    simp only [genBody, hcol]
    rw [List.getElem?_set, ih, hlen]
    by_cases hjk : k = j
    · subst hjk
      by_cases hj : k < s.1.meanX.length
      · simp [hj]
      · simp [hj]; omega
    · have : (j < k + 1) ↔ j < k := by omega
      simp [hjk, this]

end LoopLemmas


section VecLemmas
variable {α : Type} [Field α]

theorem arrAt_map (f : α → α) (a : List α) (i : Nat) (h : i < a.length) :
    arrAt (a.map f) i = f (arrAt a i) := by
  simp [arrAt, List.getD_eq_getElem?_getD, h]

theorem arrAt_zipWith (f : α → α → α) (a b : List α) (i : Nat) (ha : i < a.length)
    (hb : i < b.length) : arrAt (List.zipWith f a b) i = f (arrAt a i) (arrAt b i) := by
  simp [arrAt, List.getD_eq_getElem?_getD, List.getElem?_zipWith, ha, hb]

theorem vsum_zipWith_mul (a b : List α) (p : Nat) (ha : a.length = p) (hb : b.length = p) :
    vsum (List.zipWith (fun c m => c * m) a b) =
      ∑ i in Finset.range p, arrAt a i * arrAt b i := by
  induction a generalizing b p with
  | nil => subst ha; simp [vsum]
  | cons x a ih =>
    cases b with
    | nil => subst ha; simp at hb
    | cons y b =>
      subst ha
      simp only [List.length_cons, Nat.add_right_cancel_iff] at hb
      have := ih b a.length rfl hb
      simp only [vsum] at this
      simp [vsum, Finset.sum_range_succ', arrAt, this]
      ring

end VecLemmas

section Bodies
variable {α : Type} [Field α]

theorem bodyU1_eq [DecidableEq α] (sqrt : α → α) :
    bodyU1 sqrt = genBody none (some (scaleU1 sqrt))
      (fun c => c.map (fun x => x * (1 / scaleU1 sqrt c))) := rfl

theorem bodyW1_eq [DecidableEq α] (sqrt : α → α) (wts : List α) :
    bodyW1 sqrt wts = genBody none (some (scaleW1 sqrt wts))
      (fun c => c.map (fun x => x * (1 / scaleW1 sqrt wts c))) := rfl

theorem bodyU2_eq :
    (bodyU2 : Nat → DataStd α × List (List α) → DataStd α × List (List α)) =
      genBody (some vmean) none (fun c => c.map (fun x => x - 0 * vmean c)) := rfl

theorem bodyW2_eq (sqrt : α → α) (wts : List α) :
    bodyW2 sqrt wts = genBody (some (fun c => vmean (timesSqrtWts sqrt c wts))) none
      (fun c => c.map (fun x => x - 0 * vmean (timesSqrtWts sqrt c wts))) := rfl

theorem bodyU3_eq [DecidableEq α] (sqrt : α → α) (n_invsqrt : α) :
    bodyU3 sqrt n_invsqrt = genBody (some vmean) (some (scaleU3 sqrt n_invsqrt))
      (fun c => (c.map (fun x => x - 0 * vmean c)).map (fun x => x / scaleU3 sqrt n_invsqrt c)) :=
  rfl

theorem bodyW3_eq (sqrt : α → α) (n_invsqrt : α) :
    bodyW3 sqrt n_invsqrt = genBody (some vmean) (some (rawScale3 sqrt n_invsqrt))
      (fun c => (c.map (fun x => x - 0 * vmean c)).map (fun x => x / rawScale3 sqrt n_invsqrt c)) :=
  rfl

/-- The three guarded scales are never zero. -/
theorem guarded_scale_ne_zero [DecidableEq α] (sqrt : α → α) (a : α) (wts c : List α) :
    scaleU1 sqrt c ≠ 0 ∧ scaleW1 sqrt wts c ≠ 0 ∧ scaleU3 sqrt a c ≠ 0 := by
  refine ⟨?_, ?_, ?_⟩
  · unfold scaleU1; split <;> simp [*]
  · unfold scaleW1; split <;> simp [*]
  · unfold scaleU3; split <;> simp [*]

end Bodies

/-! ## Lemmas on sparse vectors -/

section Sparse
variable {α : Type} [Field α]

theorem coeff_nil (p i : Nat) : (SpVec.mk p ([] : List (Nat × α))).coeff i = 0 := rfl

theorem coeff_cons (p i j : Nat) (v : α) (l : List (Nat × α)) :
    (SpVec.mk p ((j, v) :: l)).coeff i = if j = i then v else (SpVec.mk p l).coeff i := by
  by_cases h : j = i
  · simp [SpVec.coeff, List.find?, h]
  · have hb : (j == i) = false := by simp [h]
    simp [SpVec.coeff, List.find?, hb, h]

/-- Mapping the stored values by a function that fixes zero commutes with reading. -/
theorem coeff_mapVals (f : Nat → α → α) (hf : ∀ i, f i 0 = 0) (p : Nat) (l : List (Nat × α))
    (i : Nat) :
    (SpVec.mk p (l.map (fun e => (e.1, f e.1 e.2)))).coeff i = f i ((SpVec.mk p l).coeff i) := by
  induction l with
  | nil => simp [coeff_nil, hf]
  | cons e l ih =>
    obtain ⟨j, v⟩ := e
    simp only [List.map_cons, coeff_cons, ih]
    by_cases h : j = i
    · simp [h]
    · simp [h]

theorem coeff_elementwise_quot (sp : SpVec α) (arr : List α) (i : Nat) :
    (elementwise_quot sp arr).coeff i = sp.coeff i / arrAt arr i := by
  have := coeff_mapVals (fun j v => v / arrAt arr j) (by simp) sp.size sp.entries i
  simpa [elementwise_quot] using this

theorem coeff_scale (sp : SpVec α) (c : α) (i : Nat) :
    (sp.scale c).coeff i = sp.coeff i * c := by
  have := coeff_mapVals (fun _ v => v * c) (by simp) sp.size sp.entries i
  simpa [SpVec.scale] using this

theorem length_toDense (sp : SpVec α) : sp.toDense.length = sp.size := by
  simp [SpVec.toDense]

theorem arrAt_toDense (sp : SpVec α) (i : Nat) (h : i < sp.size) :
    arrAt sp.toDense i = sp.coeff i := by
  simp [SpVec.toDense, arrAt, List.getD_eq_getElem?_getD, h]

theorem WF_elementwise_quot (sp : SpVec α) (arr : List α) (h : sp.WF) :
    (elementwise_quot sp arr).WF := by
  obtain ⟨h1, h2⟩ := h
  refine ⟨?_, ?_⟩
  · simpa [elementwise_quot, List.map_map, Function.comp_def] using h1
  · intro e he
    simp only [elementwise_quot, List.mem_map] at he
    obtain ⟨e', he', rfl⟩ := he
    exact h2 e' he'

theorem WF_scale (sp : SpVec α) (c : α) (h : sp.WF) : (sp.scale c).WF := by
  obtain ⟨h1, h2⟩ := h
  refine ⟨?_, ?_⟩
  · simpa [SpVec.scale, List.map_map, Function.comp_def] using h1
  · intro e he
    simp only [SpVec.scale, List.mem_map] at he
    obtain ⟨e', he', rfl⟩ := he
    exact h2 e' he'

theorem foldl_add_eq (l : List (Nat × α)) (arr : List α) (a : α) :
    l.foldl (fun res e => res + e.2 * arrAt arr e.1) a =
      a + (l.map (fun e => e.2 * arrAt arr e.1)).sum := by
  induction l generalizing a with
  | nil => simp
  | cons e l ih => simp [ih, add_assoc]

/-- An index below every stored index holds zero. -/
theorem coeff_eq_zero_of_lt (p j : Nat) (l : List (Nat × α)) (h : ∀ e ∈ l, j < e.1) :
    (SpVec.mk p l).coeff j = 0 := by
  induction l with
  | nil => rfl
  | cons e l ih =>
    obtain ⟨k, v⟩ := e
    have hk : j < k := h (k, v) (by simp)
    rw [coeff_cons, if_neg (by omega)]
    exact ih (fun e he => h e (by simp [he]))

theorem sum_entries_eq (p : Nat) (l : List (Nat × α)) (arr : List α)
    (h1 : (l.map Prod.fst).Pairwise (· < ·)) (h2 : ∀ e ∈ l, e.1 < p) :
    (l.map (fun e => e.2 * arrAt arr e.1)).sum =
      ∑ i in Finset.range p, (SpVec.mk p l).coeff i * arrAt arr i := by
  induction l with
  | nil => simp [coeff_nil]
  | cons e l ih =>
    obtain ⟨j, v⟩ := e
    simp only [List.map_cons, List.pairwise_cons, List.mem_map, forall_exists_index, and_imp,
      forall_apply_eq_imp_iff₂] at h1
    have hj : j < p := h2 (j, v) (by simp)
    have hz : (SpVec.mk p l).coeff j = 0 := coeff_eq_zero_of_lt p j l h1.1
    have ih' := ih h1.2 (fun e he => h2 e (by simp [he]))
    have hsplit : ∀ i, (SpVec.mk p ((j, v) :: l)).coeff i * arrAt arr i =
        (SpVec.mk p l).coeff i * arrAt arr i + (if j = i then v * arrAt arr i else 0) := by
      intro i
      rw [coeff_cons]
      by_cases h : j = i
      · subst h; simp [hz]
      · simp [h]
    simp only [List.map_cons, List.sum_cons, ih']
    rw [Finset.sum_congr rfl (fun i _ => hsplit i), Finset.sum_add_distrib,
      Finset.sum_ite_eq (Finset.range p) j (fun i => v * arrAt arr i)]
    simp [hj, add_comm]

theorem sparse_inner_product_eq (sp : SpVec α) (arr : List α) (h : sp.WF) :
    sparse_inner_product sp arr = ∑ i in Finset.range sp.size, sp.coeff i * arrAt arr i := by
  rw [sparse_inner_product, foldl_add_eq, zero_add]
  exact sum_entries_eq sp.size sp.entries arr h.1 h.2

/-- The two overloads of `recover` agree on any state whose arrays have the sizes the
constructor gives them. -/
theorem recover_overloads_agree (ds : DataStd α) (beta0 : α) (sp : SpVec α) (hwf : sp.WF)
    (hsz : sp.size = ds.p) (hs : ds.flag = 1 ∨ ds.flag = 3 → ds.scaleX.length = ds.p)
    (hm : ds.flag = 2 ∨ ds.flag = 3 → ds.meanX.length = ds.p) :
    (ds.recoverSparse beta0 sp).1 = (ds.recover beta0 sp.toDense).1 ∧
    ∀ i < ds.p, (ds.recoverSparse beta0 sp).2.coeff i = arrAt (ds.recover beta0 sp.toDense).2 i := by
  have hlen := length_toDense sp
  rcases Nat.lt_or_ge ds.flag 4 with hlt | hge
  · have hcases : ds.flag = 0 ∨ ds.flag = 1 ∨ ds.flag = 2 ∨ ds.flag = 3 := by omega
    rcases hcases with hf | hf | hf | hf
    · refine ⟨by simp [DataStd.recoverSparse, DataStd.recover, hf], ?_⟩
      intro i hi
      simp only [DataStd.recoverSparse, DataStd.recover, hf]
      rw [arrAt_toDense _ _ (by omega)]
    · have hs' := hs (Or.inl hf)
      refine ⟨by simp [DataStd.recoverSparse, DataStd.recover, hf], ?_⟩
      intro i hi
      simp only [DataStd.recoverSparse, DataStd.recover, hf]
      rw [coeff_scale, coeff_elementwise_quot, arrAt_map _ _ _ (by simp [hlen, hsz, hs', hi]),
        arrAt_zipWith _ _ _ _ (by omega) (by omega), arrAt_toDense _ _ (by omega)]
    · have hm' := hm (Or.inl hf)
      have hco : ∀ i < ds.p, (sp.scale ds.scaleY).coeff i =
          arrAt (sp.toDense.map (fun c => c * ds.scaleY)) i := by
        intro i hi
        rw [coeff_scale, arrAt_map _ _ _ (by omega), arrAt_toDense _ _ (by omega)]
      refine ⟨?_, ?_⟩
      · simp only [DataStd.recoverSparse, DataStd.recover, hf]
        rw [sparse_inner_product_eq _ _ (WF_scale _ _ hwf),
          vsum_zipWith_mul _ _ ds.p (by simp [hlen, hsz]) hm']
        have : (sp.scale ds.scaleY).size = ds.p := hsz
        rw [this]
        congr 1
        exact Finset.sum_congr rfl (fun i hi => by rw [hco i (Finset.mem_range.mp hi)])
      · intro i hi
        simpa only [DataStd.recoverSparse, DataStd.recover, hf] using hco i hi
    · have hs' := hs (Or.inr hf)
      have hm' := hm (Or.inr hf)
      have hco : ∀ i < ds.p, ((elementwise_quot sp ds.scaleX).scale ds.scaleY).coeff i =
          arrAt ((List.zipWith (fun c s => c / s) sp.toDense ds.scaleX).map
            (fun c => c * ds.scaleY)) i := by
        intro i hi
        rw [coeff_scale, coeff_elementwise_quot, arrAt_map _ _ _ (by simp [hlen, hsz, hs', hi]),
          arrAt_zipWith _ _ _ _ (by omega) (by omega), arrAt_toDense _ _ (by omega)]
      refine ⟨?_, ?_⟩
      · simp only [DataStd.recoverSparse, DataStd.recover, hf]
        rw [sparse_inner_product_eq _ _ (WF_scale _ _ (WF_elementwise_quot _ _ hwf)),
          vsum_zipWith_mul _ _ ds.p (by simp [hlen, hsz, hs']) hm']
        have : ((elementwise_quot sp ds.scaleX).scale ds.scaleY).size = ds.p := hsz
        rw [this]
        congr 1
        exact Finset.sum_congr rfl (fun i hi => by rw [hco i (Finset.mem_range.mp hi)])
      · intro i hi
        simpa only [DataStd.recoverSparse, DataStd.recover, hf] using hco i hi
  · obtain ⟨k, hk⟩ : ∃ k, ds.flag = k + 4 := ⟨ds.flag - 4, by omega⟩
    refine ⟨by simp [DataStd.recoverSparse, DataStd.recover, hk], ?_⟩
    intro i hi
    simp only [DataStd.recoverSparse, DataStd.recover, hk]
    rw [arrAt_toDense _ _ (by omega)]

/-- When no stored scale is zero, every quotient of `recover` has a value, in the dense
and in the sparse form, and the two forms agree. -/
theorem recoverChecked_agree [DecidableEq α] (ds : DataStd α) (beta0 : α) (sp : SpVec α)
    (hwf : sp.WF) (hsz : sp.size = ds.p)
    (hs : ds.flag = 1 ∨ ds.flag = 3 → ds.scaleX.length = ds.p)
    (hm : ds.flag = 2 ∨ ds.flag = 3 → ds.meanX.length = ds.p)
    (hnz : ds.flag = 1 ∨ ds.flag = 3 → ∀ s ∈ ds.scaleX, s ≠ 0) :
    ds.recoverChecked beta0 sp.toDense = some (ds.recover beta0 sp.toDense) ∧
    ds.recoverSparseChecked beta0 sp = some (ds.recoverSparse beta0 sp) ∧
    (ds.recoverSparse beta0 sp).1 = (ds.recover beta0 sp.toDense).1 ∧
    ∀ i < ds.p,
      (ds.recoverSparse beta0 sp).2.coeff i = arrAt (ds.recover beta0 sp.toDense).2 i := by
  obtain ⟨a1, a2⟩ := recover_overloads_agree ds beta0 sp hwf hsz hs hm
  refine ⟨?_, ?_, a1, a2⟩
  · unfold DataStd.recoverChecked
    rw [if_neg]
    rintro ⟨hf, hany⟩
    obtain ⟨s, hmem, hz⟩ := List.any_eq_true.mp hany
    exact hnz hf s (List.mem_of_mem_take hmem) (of_decide_eq_true hz)
  · unfold DataStd.recoverSparseChecked
    rw [if_neg]
    rintro ⟨hf, hany⟩
    obtain ⟨e, hmem, hz⟩ := List.any_eq_true.mp hany
    have hlt : e.1 < ds.scaleX.length := by
      have := hwf.2 e hmem
      rw [hs hf, ← hsz]
      exact this
    have harr : arrAt ds.scaleX e.1 = ds.scaleX[e.1] := by
      simp [arrAt, List.getD_eq_getElem?_getD, hlt]
    have hz' : arrAt ds.scaleX e.1 = 0 := of_decide_eq_true hz
    rw [harr] at hz'
    exact hnz hf _ (List.getElem_mem _) hz'

end Sparse

/-! ## What `standardize` keeps -/

section Shape
variable {α : Type} [Field α] [DecidableEq α]

theorem standardizeY_frame (sqrt : α → α) (ds : DataStd α) (Y wts : List α) :
    (standardizeY sqrt ds Y wts).1.flag = ds.flag ∧
    (standardizeY sqrt ds Y wts).1.n = ds.n ∧
    (standardizeY sqrt ds Y wts).1.p = ds.p ∧
    (standardizeY sqrt ds Y wts).1.meanX = ds.meanX ∧
    (standardizeY sqrt ds Y wts).1.scaleX = ds.scaleX := by
  unfold standardizeY
  split <;> simp [standardizeY_case3]

theorem standardizeY_scaleY (sqrt : α → α) (ds : DataStd α) (Y wts : List α)
    (h : ds.scaleY = 1) : (standardizeY sqrt ds Y wts).1.scaleY = 1 := by
  unfold standardizeY
  split <;> simp [standardizeY_case3, h]

/-- The loop that `standardizeX` runs, as an instance of `genBody`. -/
theorem standardizeX_eq_gen (sqrt : α → α) (ds : DataStd α) (X : List (List α))
    (wts : List α) :
    standardizeX sqrt ds X wts = (ds, X) ∨
    ∃ mean scale g, standardizeX sqrt ds X wts = forLoop ds.p (genBody mean scale g) (ds, X) := by
  unfold standardizeX
  simp only
  split
  · split
    · exact Or.inr ⟨_, _, _, by rw [bodyW1_eq]⟩
    · exact Or.inr ⟨_, _, _, by rw [bodyW2_eq]⟩
    · exact Or.inr ⟨_, _, _, by rw [bodyW3_eq]⟩
    · exact Or.inl rfl
  · split
    · exact Or.inr ⟨_, _, _, by rw [bodyU1_eq]⟩
    · exact Or.inr ⟨_, _, _, by rw [bodyU2_eq]⟩
    · exact Or.inr ⟨_, _, _, by rw [bodyU3_eq]⟩
    · exact Or.inl rfl

theorem standardizeX_frame (sqrt : α → α) (ds : DataStd α) (X : List (List α))
    (wts : List α) :
    (standardizeX sqrt ds X wts).1.flag = ds.flag ∧
    (standardizeX sqrt ds X wts).1.n = ds.n ∧
    (standardizeX sqrt ds X wts).1.p = ds.p ∧
    (standardizeX sqrt ds X wts).1.meanY = ds.meanY ∧
    (standardizeX sqrt ds X wts).1.scaleY = ds.scaleY ∧
    (standardizeX sqrt ds X wts).2.length = X.length ∧
    (standardizeX sqrt ds X wts).1.meanX.length = ds.meanX.length ∧
    (standardizeX sqrt ds X wts).1.scaleX.length = ds.scaleX.length := by
  rcases standardizeX_eq_gen sqrt ds X wts with h | ⟨mean, scale, g, h⟩
  · simp [h]
  · rw [h]
    obtain ⟨a1, a2, a3, a4, a5⟩ := genLoop_frame mean scale g (ds, X) ds.p
    obtain ⟨b1, b2, b3⟩ := genLoop_length mean scale g (ds, X) ds.p
    exact ⟨a1, a2, a3, a4, a5, b1, b2, b3⟩

/-- What `standardize` keeps of a freshly constructed object: the mode, the dimensions, the
sizes of the two statistics arrays, and `scaleY = 1`. -/
theorem standardize_shape (sqrt : α → α) (ds : DataStd α) (X : List (List α))
    (Y wts : List α) :
    (ds.standardize sqrt X Y wts).ds.flag = ds.flag ∧
    (ds.standardize sqrt X Y wts).ds.n = ds.n ∧
    (ds.standardize sqrt X Y wts).ds.p = ds.p ∧
    (ds.standardize sqrt X Y wts).ds.meanX.length = ds.meanX.length ∧
    (ds.standardize sqrt X Y wts).ds.scaleX.length = ds.scaleX.length ∧
    (ds.scaleY = 1 → (ds.standardize sqrt X Y wts).ds.scaleY = 1) := by
  obtain ⟨y1, y2, y3, y4, y5⟩ := standardizeY_frame sqrt ds Y wts
  obtain ⟨x1, x2, x3, _, x5, _, x7, x8⟩ :=
    standardizeX_frame sqrt (standardizeY sqrt ds Y wts).1 X wts
  simp only [DataStd.standardize]
  refine ⟨x1.trans y1, x2.trans y2, x3.trans y3, ?_, ?_, ?_⟩
  · rw [x7, y4]
  · rw [x8, y5]
  · intro h
    rw [x5]
    exact standardizeY_scaleY sqrt ds Y wts h

omit [DecidableEq α] in
theorem new_flag (n p : Nat) (std icpt : Bool) :
    (DataStd.new n p std icpt : DataStd α).flag =
      (if std then 1 else 0) + 2 * (if icpt then 1 else 0) := rfl

omit [DecidableEq α] in
theorem new_shape (n p : Nat) (std icpt : Bool) :
    (DataStd.new n p std icpt : DataStd α).p = p ∧
    (DataStd.new n p std icpt : DataStd α).n = n ∧
    (DataStd.new n p std icpt : DataStd α).scaleY = 1 ∧
    (DataStd.new n p std icpt : DataStd α).meanY = 0 ∧
    ((DataStd.new n p std icpt : DataStd α).flag = 1 ∨
      (DataStd.new n p std icpt : DataStd α).flag = 3 →
      (DataStd.new n p std icpt : DataStd α).scaleX.length = p) ∧
    ((DataStd.new n p std icpt : DataStd α).flag = 2 ∨
      (DataStd.new n p std icpt : DataStd α).flag = 3 →
      (DataStd.new n p std icpt : DataStd α).meanX.length = p) := by
  cases std <;> cases icpt <;> simp [DataStd.new]

end Shape

/-! ## `standardize`, mode by mode -/

section Modes
variable {α : Type} [Field α]

theorem standardizeY_mode1 (sqrt : α → α) (ds : DataStd α) (Y wts : List α) (hf : ds.flag = 1) :
    standardizeY sqrt ds Y wts = ({ ds with scaleY := 1 }, Y) := by
  simp [standardizeY, hf]

theorem standardizeY_mode2 (sqrt : α → α) (ds : DataStd α) (Y wts : List α) (hf : ds.flag = 2) :
    standardizeY sqrt ds Y wts =
      ({ ds with
          meanY := if wts.length ≠ 0 then vmean (timesSqrtWts sqrt Y wts) else vmean Y
          scaleY := 1 }, Y) := by
  simp [standardizeY, standardizeY_case3, hf]

theorem standardizeY_mode3 (sqrt : α → α) (ds : DataStd α) (Y wts : List α) (hf : ds.flag = 3) :
    standardizeY sqrt ds Y wts =
      ({ ds with
          meanY := if wts.length ≠ 0 then vmean (timesSqrtWts sqrt Y wts) else vmean Y
          scaleY := 1 }, Y) := by
  simp [standardizeY, standardizeY_case3, hf]

omit [Field α] in
theorem set_col_self (X : List (List α)) (i : Nat) : X.set i (col X i) = X := by
  by_cases h : i < X.length
  · apply List.ext_getElem?
    intro j
    by_cases hj : i = j
    · subst hj
      simp [col, List.getD_eq_getElem?_getD, h]
    · rw [List.getElem?_set_ne hj]
  · exact List.set_eq_of_length_le (by omega)

omit [Field α] in
/-- A loop whose column map is the identity leaves the matrix as it was. -/
theorem genLoop_X_id (mean scale : Option (List α → α)) (g : List α → List α)
    (hg : ∀ c, g c = c) (s : DataStd α × List (List α)) (k : Nat) :
    (forLoop k (genBody mean scale g) s).2 = s.2 := by
  induction k with
  | zero => rfl
  | succ k ih =>
    rw [forLoop_succ]
    simp only [genBody, hg, set_col_self, ih]

theorem map_sub_zero_mul (c : List α) (m : α) : c.map (fun x => x - 0 * m) = c := by
  simp

/-- In mode 2 the loop over the columns leaves `X` as it was, with or without weights. -/
theorem standardizeX_mode2 [DecidableEq α] (sqrt : α → α) (ds : DataStd α) (X : List (List α))
    (wts : List α) (hf : ds.flag = 2) : (standardizeX sqrt ds X wts).2 = X := by
  unfold standardizeX
  simp only [hf]
  split
  · rw [bodyW2_eq]
    exact genLoop_X_id _ _ _ (fun c => map_sub_zero_mul c _) _ _
  · rw [bodyU2_eq]
    exact genLoop_X_id _ _ _ (fun c => map_sub_zero_mul c _) _ _

theorem standardizeX_mode3 [DecidableEq α] (sqrt : α → α) (ds : DataStd α)
    (X : List (List α)) (wts : List α) (hf : ds.flag = 3) :
    standardizeX sqrt ds X wts =
      forLoop ds.p (genBody (some vmean) (some (scale3 sqrt (1 / sqrt (ds.n : α)) wts))
        (fun c => c.map (fun x => x / scale3 sqrt (1 / sqrt (ds.n : α)) wts c))) (ds, X) := by
  unfold standardizeX
  simp only [hf]
  by_cases hw : wts.length ≠ 0
  · rw [if_pos hw, bodyW3_eq]
    simp only [scale3, if_pos hw, map_sub_zero_mul]
  · rw [if_neg hw, bodyU3_eq]
    simp only [scale3, if_neg hw, map_sub_zero_mul]

theorem standardizeX_mode1 [DecidableEq α] (sqrt : α → α) (ds : DataStd α)
    (X : List (List α)) (hf : ds.flag = 1) :
    standardizeX sqrt ds X [] =
      forLoop ds.p (genBody none (some (scaleU1 sqrt))
        (fun c => c.map (fun x => x * (1 / scaleU1 sqrt c)))) (ds, X) := by
  simp [standardizeX, hf, bodyU1_eq]

omit [Field α] in
/-- After a `genBody` loop, column `i` is the column map applied to the original column. -/
theorem genLoop_col_lt (mean scale : Option (List α → α)) (g : List α → List α)
    (hg : g [] = []) (s : DataStd α × List (List α)) (k i : Nat) (hi : i < k) :
    col (forLoop k (genBody mean scale g) s).2 i = g (col s.2 i) := by
  rw [genLoop_col]
  by_cases h : i < s.2.length
  · simp [hi, h]
  · have : col s.2 i = [] := by
      simp [col, List.getD_eq_getElem?_getD, List.getElem?_eq_none (Nat.le_of_not_lt h)]
    simp [h, this, hg]

theorem genLoop_scaleX_lt (mean : Option (List α → α)) (f : List α → α)
    (g : List α → List α) (s : DataStd α × List (List α)) (k i : Nat) (hi : i < k)
    (hs : i < s.1.scaleX.length) :
    arrAt (forLoop k (genBody mean (some f) g) s).1.scaleX i = f (col s.2 i) := by
  simp [arrAt, List.getD_eq_getElem?_getD, genLoop_scaleX_some, hi, hs]

theorem genLoop_meanX_lt (scale : Option (List α → α)) (f : List α → α)
    (g : List α → List α) (s : DataStd α × List (List α)) (k i : Nat) (hi : i < k)
    (hs : i < s.1.meanX.length) :
    arrAt (forLoop k (genBody (some f) scale g) s).1.meanX i = f (col s.2 i) := by
  simp [arrAt, List.getD_eq_getElem?_getD, genLoop_meanX_some, hi, hs]

/-- Mode 1 without weights, in the terms of the code. -/
theorem standardize_U1 [DecidableEq α] (sqrt : α → α) (n p : Nat) (X : List (List α))
    (Y : List α) :
    ((DataStd.new n p true false).standardize sqrt X Y []).Y = Y ∧
    ((DataStd.new n p true false).standardize sqrt X Y []).ds.scaleY = 1 ∧
    ∀ i < p,
      arrAt ((DataStd.new n p true false).standardize sqrt X Y []).ds.scaleX i =
        scaleU1 sqrt (col X i) ∧
      col ((DataStd.new n p true false).standardize sqrt X Y []).X i =
        (col X i).map (fun x => x * (1 / scaleU1 sqrt (col X i))) := by
  have hf : (DataStd.new n p true false : DataStd α).flag = 1 := rfl
  simp only [DataStd.standardize, standardizeY_mode1 sqrt _ Y [] hf]
  rw [standardizeX_mode1 sqrt _ X rfl]
  refine ⟨trivial, (genLoop_frame _ _ _ _ _).2.2.2.2, ?_⟩
  intro i hi
  refine ⟨?_, ?_⟩
  · exact genLoop_scaleX_lt _ _ _ _ _ _ hi (by simp [DataStd.new, hi])
  · exact genLoop_col_lt _ _ _ (by simp) _ _ _ hi

/-- Mode 3, in the terms of the code. -/
theorem standardize_mode3 [DecidableEq α] (sqrt : α → α) (n p : Nat) (X : List (List α))
    (Y wts : List α) :
    ((DataStd.new n p true true).standardize sqrt X Y wts).Y = Y ∧
    ((DataStd.new n p true true).standardize sqrt X Y wts).ds.scaleY = 1 ∧
    ((DataStd.new n p true true).standardize sqrt X Y wts).ds.meanY =
      (if wts.length ≠ 0 then vmean (timesSqrtWts sqrt Y wts) else vmean Y) ∧
    ∀ i < p,
      arrAt ((DataStd.new n p true true).standardize sqrt X Y wts).ds.meanX i =
        vmean (col X i) ∧
      arrAt ((DataStd.new n p true true).standardize sqrt X Y wts).ds.scaleX i =
        scale3 sqrt (1 / sqrt (n : α)) wts (col X i) ∧
      col ((DataStd.new n p true true).standardize sqrt X Y wts).X i =
        (col X i).map (fun x => x / scale3 sqrt (1 / sqrt (n : α)) wts (col X i)) := by
  have hf : (DataStd.new n p true true : DataStd α).flag = 3 := rfl
  simp only [DataStd.standardize, standardizeY_mode3 sqrt _ Y wts hf]
  rw [standardizeX_mode3 sqrt _ X wts rfl]
  refine ⟨trivial, (genLoop_frame _ _ _ _ _).2.2.2.2, (genLoop_frame _ _ _ _ _).2.2.2.1, ?_⟩
  intro i hi
  refine ⟨?_, ?_, ?_⟩
  · exact genLoop_meanX_lt _ _ _ _ _ _ hi (by simp [DataStd.new, hi])
  · exact genLoop_scaleX_lt _ _ _ _ _ _ hi (by simp [DataStd.new, hi])
  · exact genLoop_col_lt _ _ _ (by simp) _ _ _ hi

/-- Mode 2, in the terms of the code. -/
theorem standardize_mode2 [DecidableEq α] (sqrt : α → α) (n p : Nat) (X : List (List α))
    (Y wts : List α) :
    ((DataStd.new n p false true).standardize sqrt X Y wts).Y = Y ∧
    ((DataStd.new n p false true).standardize sqrt X Y wts).X = X ∧
    ((DataStd.new n p false true).standardize sqrt X Y wts).ds.scaleY = 1 ∧
    ((DataStd.new n p false true).standardize sqrt X Y wts).ds.meanY =
      (if wts.length ≠ 0 then vmean (timesSqrtWts sqrt Y wts) else vmean Y) := by
  have hf : (DataStd.new n p false true : DataStd α).flag = 2 := rfl
  obtain ⟨_, _, _, x4, x5, _⟩ := standardizeX_frame sqrt
    (standardizeY sqrt (DataStd.new n p false true : DataStd α) Y wts).1 X wts
  refine ⟨?_, ?_, ?_, ?_⟩
  · simp only [DataStd.standardize, standardizeY_mode2 sqrt _ Y wts hf]
  · simp only [DataStd.standardize]
    exact standardizeX_mode2 sqrt _ X wts (by rw [(standardizeY_frame sqrt _ Y wts).1]; exact hf)
  · simp only [DataStd.standardize]
    rw [x5, standardizeY_mode2 sqrt _ Y wts hf]
  · simp only [DataStd.standardize]
    rw [x4, standardizeY_mode2 sqrt _ Y wts hf]

end Modes

/-! ## The loop of `oem_fit` -/

section Driver
variable {α : Type} [Field α]

theorem warmCalls_snoc (n : Nat) (scaleY : α) (maxit : Int) (l : List α) (x : α) :
    warmCalls n scaleY maxit (l ++ [x]) =
      warmCalls n scaleY maxit l ++
        [Call.init_warm (x * (n : α) / scaleY), Call.solve maxit, Call.get_gamma] := by
  induction l with
  | nil => rfl
  | cons a l ih => simp [warmCalls, ih]

theorem specTrace_snoc (n : Nat) (scaleY : α) (maxit : Int) (l : List α) (x : α)
    (hl : l ≠ []) :
    specTrace n scaleY maxit (l ++ [x]) =
      specTrace n scaleY maxit l ++
        [Call.init_warm (x * (n : α) / scaleY), Call.solve maxit, Call.get_gamma] := by
  cases l with
  | nil => exact absurd rfl hl
  | cons a l => simp [specTrace, warmCalls_snoc]

theorem oem_loop_trace {σ : Type} (S : Solver σ α) (P : Prepared σ α) (lambda : List α)
    (maxit : Int) (st0 : LoopState σ α) (m : Nat) (hm : m ≤ lambda.length) :
    (forLoop m (oem_loop_body S P lambda maxit) st0).trace =
      st0.trace ++ specTrace P.n P.datstd.get_scaleY maxit (lambda.take m) := by
  induction m with
  | zero => simp [forLoop, specTrace]
  | succ m ih =>
    have hlt : m < lambda.length := by omega
    rw [forLoop_succ]
    simp only [oem_loop_body]
    rw [ih (by omega), List.take_succ, List.getElem?_eq_getElem hlt]
    have harr : arrAt lambda m = lambda[m] := by
      simp [arrAt, List.getD_eq_getElem?_getD, hlt]
    cases m with
    | zero => simp [specTrace, warmCalls, ilambdaOf, harr]
    | succ k =>
      have hne : lambda.take (k + 1) ≠ [] := by
        intro h
        have hlen : (lambda.take (k + 1)).length = k + 1 := by
          rw [List.length_take]; omega
        rw [h] at hlen
        simp at hlen
      simp only [Option.toList]
      rw [specTrace_snoc _ _ _ _ _ hne]
      simp [ilambdaOf, harr, List.append_assoc]

theorem countP_warmCalls (n : Nat) (scaleY : α) (maxit : Int) (l : List α) :
    (warmCalls n scaleY maxit l).countP Call.isInit = 0 ∧
    (warmCalls n scaleY maxit l).countP Call.isInitWarm = l.length := by
  induction l with
  | nil => simp [warmCalls]
  | cons a l ih => simp [warmCalls, List.countP_cons, Call.isInit, Call.isInitWarm, ih]

end Driver

section Driver2
variable {α : Type} [Field α] [DecidableEq α]

theorem oem_prepare_n {σ : Type} (S : Solver σ α) (sqrt : α → α) (xx : NumericMatrix α)
    (yy : List α) (family : String) (pf : List α) (std icpt : Bool) (opts : Opts α) :
    (oem_prepare S sqrt xx yy family pf std icpt opts).n = xx.nrow := rfl

/-- The solver pointer is set only in the tall gaussian branch. -/
theorem oem_prepare_solver {σ : Type} (S : Solver σ α) (sqrt : α → α) (xx : NumericMatrix α)
    (yy : List α) (family : String) (pf : List α) (std icpt : Bool) (opts : Opts α) (s0 : σ)
    (h : (oem_prepare S sqrt xx yy family pf std icpt opts).solver = some s0) :
    xx.nrow > 2 * xx.ncol ∧ family = "gaussian" := by
  simp only [oem_prepare] at h
  by_cases hn : xx.nrow > 2 * xx.ncol
  · by_cases hg : family = "gaussian"
    · exact ⟨hn, hg⟩
    · simp [hn, hg] at h
  · simp [hn] at h

theorem oem_prepare_wide {σ : Type} (S : Solver σ α) (sqrt : α → α) (xx : NumericMatrix α)
    (yy : List α) (family : String) (pf : List α) (std icpt : Bool) (opts : Opts α)
    (h : xx.nrow ≤ 2 * xx.ncol) :
    (oem_prepare S sqrt xx yy family pf std icpt opts).solver = none := by
  have hn : ¬ xx.nrow > 2 * xx.ncol := by omega
  simp [oem_prepare, hn]

theorem oem_prepare_scaleY {σ : Type} (S : Solver σ α) (sqrt : α → α) (xx : NumericMatrix α)
    (yy : List α) (family : String) (pf : List α) (std icpt : Bool) (opts : Opts α) :
    (oem_prepare S sqrt xx yy family pf std icpt opts).datstd.get_scaleY = 1 := by
  simp only [oem_prepare, DataStd.get_scaleY]
  exact (standardize_shape sqrt _ _ _ _).2.2.2.2.2 rfl

/-- With a constructed solver and at least one penalty supplied, the run returns and its
trace is the loop's. -/
theorem oem_fit_explicit {σ : Type} (S : Solver σ α) (sqrt exp log : α → α)
    (xx : NumericMatrix α) (yy : List α) (family : String) (lambda_ : List α) (nlambda_ : Nat)
    (lmin_ratio_ : α) (pf : List α) (std icpt : Bool) (opts : Opts α) (s0 : σ)
    (hk : 1 ≤ lambda_.length)
    (hs : (oem_prepare S sqrt xx yy family pf std icpt opts).solver = some s0) :
    (oem_fit S sqrt exp log xx yy family lambda_ nlambda_ lmin_ratio_ pf std icpt opts).trace =
      specTrace xx.nrow (oem_prepare S sqrt xx yy family pf std icpt opts).datstd.get_scaleY
        opts.maxit lambda_ := by
  have hk' : ¬ lambda_.length < 1 := by omega
  simp only [oem_fit, hs, hk', if_false]
  rw [oem_loop_trace S _ lambda_ opts.maxit _ lambda_.length (Nat.le_refl _)]
  simp [oem_prepare_n]

end Driver2

/-! ## The recording solver -/

section Recording
variable {α : Type} [Field α] [DecidableEq α]

/-- The driver prepares the same locals for the recording solver, whose log starts empty. -/
theorem oem_prepare_recordCalls {σ : Type} (S : Solver σ α) (sqrt : α → α)
    (xx : NumericMatrix α) (yy : List α) (family : String) (pf : List α) (std icpt : Bool)
    (opts : Opts α) :
    (oem_prepare (recordCalls S) sqrt xx yy family pf std icpt opts).solver =
      (oem_prepare S sqrt xx yy family pf std icpt opts).solver.map (fun s => (s, [])) ∧
    (oem_prepare (recordCalls S) sqrt xx yy family pf std icpt opts).datstd =
      (oem_prepare S sqrt xx yy family pf std icpt opts).datstd ∧
    (oem_prepare (recordCalls S) sqrt xx yy family pf std icpt opts).n =
      (oem_prepare S sqrt xx yy family pf std icpt opts).n ∧
    (oem_prepare (recordCalls S) sqrt xx yy family pf std icpt opts).p =
      (oem_prepare S sqrt xx yy family pf std icpt opts).p ∧
    (oem_prepare (recordCalls S) sqrt xx yy family pf std icpt opts).fullbetamat =
      (oem_prepare S sqrt xx yy family pf std icpt opts).fullbetamat := by
  refine ⟨?_, rfl, rfl, rfl, rfl⟩
  simp only [oem_prepare, recordCalls]
  split_ifs <;> rfl

omit [DecidableEq α] in
/-- One iteration of the loop on the recording solver appends to its log the call of
`init` (at `i = 0`) or `init_warm`, then `solve`, then `get_gamma`. -/
theorem oem_loop_body_log {σ : Type} (S : Solver σ α) (P : Prepared (σ × List (Call α)) α)
    (lambda : List α) (maxit : Int) (i : Nat) (st : LoopState (σ × List (Call α)) α) :
    (oem_loop_body (recordCalls S) P lambda maxit i st).solver.2 =
      st.solver.2 ++
        [if i = 0 then Call.init (ilambdaOf (arrAt lambda i) P.n P.datstd.get_scaleY)
          else Call.init_warm (ilambdaOf (arrAt lambda i) P.n P.datstd.get_scaleY),
          Call.solve maxit, Call.get_gamma] := by
  by_cases h0 : i = 0 <;> simp [oem_loop_body, recordCalls, h0]

omit [DecidableEq α] in
/-- The log of the recording solver after `m` iterations of the loop: the calls logged
before, then those of the specification for the first `m` penalties. -/
theorem oem_loop_log {σ : Type} (S : Solver σ α) (P : Prepared (σ × List (Call α)) α)
    (lambda : List α) (maxit : Int) (st0 : LoopState (σ × List (Call α)) α) (m : Nat)
    (hm : m ≤ lambda.length) :
    (forLoop m (oem_loop_body (recordCalls S) P lambda maxit) st0).solver.2 =
      st0.solver.2 ++ specTrace P.n P.datstd.get_scaleY maxit (lambda.take m) := by
  induction m with
  | zero => simp [forLoop, specTrace]
  | succ m ih =>
    have hlt : m < lambda.length := by omega
    rw [forLoop_succ, oem_loop_body_log, ih (by omega), List.take_succ,
      List.getElem?_eq_getElem hlt]
    have harr : arrAt lambda m = lambda[m] := by
      simp [arrAt, List.getD_eq_getElem?_getD, hlt]
    cases m with
    | zero => simp [specTrace, warmCalls, ilambdaOf, harr]
    | succ k =>
      have hne : lambda.take (k + 1) ≠ [] := by
        intro h
        have hlen : (lambda.take (k + 1)).length = k + 1 := by
          rw [List.length_take]; omega
        rw [h] at hlen
        simp at hlen
      simp only [Option.toList]
      rw [specTrace_snoc _ _ _ _ _ hne]
      simp [ilambdaOf, harr, List.append_assoc]

omit [DecidableEq α] in
/-- One iteration on the recording solver does to the solver state, the trace, the path
and the iteration counts what the iteration on the solver itself does. -/
theorem oem_loop_body_recordCalls {σ : Type} (S : Solver σ α) (P : Prepared σ α)
    (P' : Prepared (σ × List (Call α)) α) (hn : P'.n = P.n) (hd : P'.datstd = P.datstd)
    (hfb : P'.fullbetamat = P.fullbetamat) (lambda : List α) (maxit : Int) (i : Nat)
    (st : LoopState σ α) (st' : LoopState (σ × List (Call α)) α)
    (h1 : st'.solver.1 = st.solver) (h2 : st'.trace = st.trace) (h3 : st'.beta = st.beta)
    (h4 : st'.niter = st.niter) :
    (oem_loop_body (recordCalls S) P' lambda maxit i st').solver.1 =
      (oem_loop_body S P lambda maxit i st).solver ∧
    (oem_loop_body (recordCalls S) P' lambda maxit i st').trace =
      (oem_loop_body S P lambda maxit i st).trace ∧
    (oem_loop_body (recordCalls S) P' lambda maxit i st').beta =
      (oem_loop_body S P lambda maxit i st).beta ∧
    (oem_loop_body (recordCalls S) P' lambda maxit i st').niter =
      (oem_loop_body S P lambda maxit i st).niter := by
  by_cases h0 : i = 0 <;>
    simp [oem_loop_body, recordCalls, h0, hn, hd, hfb, h1, h2, h3, h4]

omit [DecidableEq α] in
/-- The loop run on the recording solver goes through the states of the loop run on the
solver itself: same solver state, trace, path and iteration counts. -/
theorem oem_loop_recordCalls {σ : Type} (S : Solver σ α) (P : Prepared σ α)
    (P' : Prepared (σ × List (Call α)) α) (hn : P'.n = P.n) (hd : P'.datstd = P.datstd)
    (hfb : P'.fullbetamat = P.fullbetamat) (lambda : List α) (maxit : Int)
    (st : LoopState σ α) (st' : LoopState (σ × List (Call α)) α)
    (h1 : st'.solver.1 = st.solver) (h2 : st'.trace = st.trace) (h3 : st'.beta = st.beta)
    (h4 : st'.niter = st.niter) (m : Nat) :
    (forLoop m (oem_loop_body (recordCalls S) P' lambda maxit) st').solver.1 =
      (forLoop m (oem_loop_body S P lambda maxit) st).solver ∧
    (forLoop m (oem_loop_body (recordCalls S) P' lambda maxit) st').trace =
      (forLoop m (oem_loop_body S P lambda maxit) st).trace ∧
    (forLoop m (oem_loop_body (recordCalls S) P' lambda maxit) st').beta =
      (forLoop m (oem_loop_body S P lambda maxit) st).beta ∧
    (forLoop m (oem_loop_body (recordCalls S) P' lambda maxit) st').niter =
      (forLoop m (oem_loop_body S P lambda maxit) st).niter := by
  induction m with
  | zero => exact ⟨h1, h2, h3, h4⟩
  | succ m ih =>
    obtain ⟨i1, i2, i3, i4⟩ := ih
    rw [forLoop_succ, forLoop_succ]
    exact oem_loop_body_recordCalls S P P' hn hd hfb lambda maxit m _ _ i1 i2 i3 i4

/-- A run with a constructed solver: the trace and the result are those of the loop entered
in the state `oem_start` gives. -/
theorem oem_fit_of_solver {σ : Type} (S : Solver σ α) (sqrt exp log : α → α)
    (xx : NumericMatrix α) (yy : List α) (family : String) (lambda_ : List α) (nlambda_ : Nat)
    (r : α) (pf : List α) (std icpt : Bool) (opts : Opts α) (s0 : σ) (P : Prepared σ α)
    (q : List α × LoopState σ α)
    (hP : oem_prepare S sqrt xx yy family pf std icpt opts = P) (hs : P.solver = some s0)
    (hq : oem_start S exp log P lambda_ nlambda_ r s0 = q) :
    oem_fit S sqrt exp log xx yy family lambda_ nlambda_ r pf std icpt opts =
      { trace := (forLoop q.1.length (oem_loop_body S P q.1 opts.maxit) q.2).trace,
        outcome := Outcome.returned
          ⟨q.1, (forLoop q.1.length (oem_loop_body S P q.1 opts.maxit) q.2).beta,
            (forLoop q.1.length (oem_loop_body S P q.1 opts.maxit) q.2).niter⟩ } := by
  subst hP hq
  simp only [oem_fit, hs, oem_start]

omit [DecidableEq α] in
/-- The loop on the recording solver is entered with the same penalties and in the same
state, the log holding `get_lambda_zero` when the penalties are generated. -/
theorem oem_start_recordCalls {σ : Type} (S : Solver σ α) (exp log : α → α)
    (P : Prepared σ α) (P' : Prepared (σ × List (Call α)) α) (hn : P'.n = P.n)
    (hd : P'.datstd = P.datstd) (hp : P'.p = P.p) (lambda_ : List α) (nlambda_ : Nat) (r : α)
    (s0 : σ) :
    (oem_start (recordCalls S) exp log P' lambda_ nlambda_ r (s0, [])).1 =
      (oem_start S exp log P lambda_ nlambda_ r s0).1 ∧
    (oem_start (recordCalls S) exp log P' lambda_ nlambda_ r (s0, [])).2.solver.1 =
      (oem_start S exp log P lambda_ nlambda_ r s0).2.solver ∧
    (oem_start (recordCalls S) exp log P' lambda_ nlambda_ r (s0, [])).2.trace =
      (oem_start S exp log P lambda_ nlambda_ r s0).2.trace ∧
    (oem_start (recordCalls S) exp log P' lambda_ nlambda_ r (s0, [])).2.beta =
      (oem_start S exp log P lambda_ nlambda_ r s0).2.beta ∧
    (oem_start (recordCalls S) exp log P' lambda_ nlambda_ r (s0, [])).2.niter =
      (oem_start S exp log P lambda_ nlambda_ r s0).2.niter ∧
    (oem_start (recordCalls S) exp log P' lambda_ nlambda_ r (s0, [])).2.solver.2 =
      (oem_start S exp log P lambda_ nlambda_ r s0).2.trace := by
  by_cases hk : lambda_.length < 1 <;> simp [oem_start, recordCalls, hk, hn, hd, hp]

/-- A run of `oem_fit` on the recording solver is the run on the solver itself. -/
theorem oem_fit_recordCalls {σ : Type} (S : Solver σ α) (sqrt exp log : α → α)
    (xx : NumericMatrix α) (yy : List α) (family : String) (lambda_ : List α) (nlambda_ : Nat)
    (r : α) (pf : List α) (std icpt : Bool) (opts : Opts α) :
    oem_fit (recordCalls S) sqrt exp log xx yy family lambda_ nlambda_ r pf std icpt opts =
      oem_fit S sqrt exp log xx yy family lambda_ nlambda_ r pf std icpt opts := by
  obtain ⟨hs, hd, hn, hp, hfb⟩ := oem_prepare_recordCalls S sqrt xx yy family pf std icpt opts
  cases hsol : (oem_prepare S sqrt xx yy family pf std icpt opts).solver with
  | none =>
    rw [hsol] at hs
    simp only [oem_fit, hs, hsol, Option.map_none', hd, hn]
  | some s0 =>
    rw [hsol] at hs
    rw [oem_fit_of_solver (recordCalls S) sqrt exp log xx yy family lambda_ nlambda_ r pf std
        icpt opts (s0, []) _ _ rfl hs rfl,
      oem_fit_of_solver S sqrt exp log xx yy family lambda_ nlambda_ r pf std icpt opts s0 _ _
        rfl hsol rfl]
    obtain ⟨q1, q2, q3, q4, q5, _⟩ := oem_start_recordCalls S exp log
      (oem_prepare S sqrt xx yy family pf std icpt opts)
      (oem_prepare (recordCalls S) sqrt xx yy family pf std icpt opts) hn hd hp lambda_
      nlambda_ r s0
    obtain ⟨_, l2, l3, l4⟩ := oem_loop_recordCalls S
      (oem_prepare S sqrt xx yy family pf std icpt opts)
      (oem_prepare (recordCalls S) sqrt xx yy family pf std icpt opts) hn hd hfb
      (oem_start S exp log (oem_prepare S sqrt xx yy family pf std icpt opts) lambda_ nlambda_
        r s0).1 opts.maxit _ _ q2 q3 q4 q5
      (oem_start S exp log (oem_prepare S sqrt xx yy family pf std icpt opts) lambda_ nlambda_
        r s0).1.length
    rw [q1, l2, l3, l4]

end Recording

/-! ## The statistics over the reals -/

section RealLemmas

theorem sum_mul_self_eq_sum_sq (c : List ℝ) :
    vsum (c.map (fun x => x * x)) = (c.map (fun x => x ^ 2)).sum := by
  simp only [vsum]
  congr 1
  exact List.map_congr_left (fun x _ => (sq x).symm)

/-- Over the reals `sd_n` is the root of the mean of the squares. -/
theorem sd_n_real (c : List ℝ) (n : Nat) (h : c.length = n) :
    sd_n Real.sqrt c = Real.sqrt ((c.map (fun x => x ^ 2)).sum / n) := by
  simp only [sd_n, vnorm, h, sum_mul_self_eq_sum_sq]
  rw [Real.sqrt_div' _ (Nat.cast_nonneg n)]

/-- Over the reals `norm() * n_invsqrt` is the root of the mean of the squares. -/
theorem rawScale3_real (c : List ℝ) (n : Nat) :
    rawScale3 Real.sqrt (1 / Real.sqrt n) c = Real.sqrt ((c.map (fun x => x ^ 2)).sum / n) := by
  simp only [rawScale3, vnorm, map_sub_zero_mul, sum_mul_self_eq_sum_sq]
  rw [Real.sqrt_div' _ (Nat.cast_nonneg n), mul_one_div]

theorem col_length (X : List (List ℝ)) (n i : Nat) (hcol : ∀ c ∈ X, c.length = n)
    (hi : i < X.length) : (col X i).length = n := by
  apply hcol
  simp [col, List.getD_eq_getElem?_getD, hi]

end RealLemmas

/-! ## The generated penalty sequence -/

section AutoLambda

theorem arrAt_map_range (f : Nat → ℝ) (c k : Nat) (hk : k < c) :
    arrAt ((List.range c).map f) k = f k := by
  simp [arrAt, List.getD_eq_getElem?_getD, hk]

/-- The generated penalties, for a count of at least two, a positive `lmax` and a ratio
strictly between 0 and 1. -/
theorem linSpaced_exp_log (c : Nat) (hc : 2 ≤ c) (lmax r : ℝ) (hl : 0 < lmax) (hr0 : 0 < r)
    (hr1 : r < 1) (L : List ℝ)
    (hL : L = (setLinSpaced c (Real.log lmax) (Real.log (r * lmax))).map Real.exp) :
    L.length = c ∧
    (∀ k < c, arrAt L k =
      Real.exp (Real.log lmax + k * (Real.log (r * lmax) - Real.log lmax) / ((c : ℝ) - 1))) ∧
    arrAt L 0 = lmax ∧
    arrAt L (c - 1) = r * lmax ∧
    (∀ k, k + 1 < c → arrAt L (k + 1) < arrAt L k) ∧
    (∀ k, k + 1 < c → arrAt L (k + 1) / arrAt L k =
      Real.exp ((Real.log (r * lmax) - Real.log lmax) / ((c : ℝ) - 1))) := by
  have hc1 : c ≠ 1 := by omega
  have hcast : ((c - 1 : Nat) : ℝ) = (c : ℝ) - 1 := by
    rw [Nat.cast_sub (by omega)]; simp
  have hcpos : (0 : ℝ) < (c : ℝ) - 1 := by
    have : (2 : ℝ) ≤ (c : ℝ) := by exact_mod_cast hc
    linarith
  have hrl : 0 < r * lmax := mul_pos hr0 hl
  have hlt : Real.log (r * lmax) < Real.log lmax := by
    apply Real.log_lt_log hrl
    nlinarith
  have hd : (Real.log (r * lmax) - Real.log lmax) / ((c : ℝ) - 1) < 0 :=
    div_neg_of_neg_of_pos (by linarith) hcpos
  have hform : ∀ k < c, arrAt L k =
      Real.exp (Real.log lmax + k * ((Real.log (r * lmax) - Real.log lmax) / ((c : ℝ) - 1))) := by
    intro k hk
    rw [hL, setLinSpaced, if_neg hc1, List.map_map, arrAt_map_range _ _ _ hk]
    simp only [Function.comp, hcast]
  refine ⟨?_, ?_, ?_, ?_, ?_, ?_⟩
  · rw [hL, setLinSpaced, if_neg hc1]; simp
  · intro k hk
    rw [hform k hk, mul_div_assoc]
  · rw [hform 0 (by omega)]
    simp [Real.exp_log hl]
  · rw [hform (c - 1) (by omega), hcast, mul_div_cancel₀ _ (ne_of_gt hcpos)]
    simp [Real.exp_log hrl]
  · intro k hk
    rw [hform (k + 1) hk, hform k (by omega)]
    apply Real.exp_lt_exp.mpr
    push_cast
    nlinarith
  · intro k hk
    rw [hform (k + 1) hk, hform k (by omega), ← Real.exp_sub]
    congr 1
    push_cast
    ring

end AutoLambda

section Generated

/-- With a constructed solver and no penalty supplied, the run returns the generated
sequence. -/
theorem oem_fit_generated {α : Type} [Field α] [DecidableEq α] {σ : Type} (S : Solver σ α)
    (sqrt exp log : α → α) (xx : NumericMatrix α) (yy : List α) (family : String) (c : Nat)
    (r : α) (pf : List α) (std icpt : Bool) (opts : Opts α) (s0 : σ)
    (hs : (oem_prepare S sqrt xx yy family pf std icpt opts).solver = some s0) :
    ∃ (b : SpMat α) (ni : List Int),
      (oem_fit S sqrt exp log xx yy family [] c r pf std icpt opts).outcome =
        Outcome.returned
          ⟨(setLinSpaced c
              (log ((S.get_lambda_zero s0).1 / (xx.nrow : α) *
                (oem_prepare S sqrt xx yy family pf std icpt opts).datstd.get_scaleY))
              (log (r * ((S.get_lambda_zero s0).1 / (xx.nrow : α) *
                (oem_prepare S sqrt xx yy family pf std icpt opts).datstd.get_scaleY)))).map exp,
            b, ni⟩ := by
  simp only [oem_fit, hs, List.length_nil, Nat.lt_one_iff, if_true, oem_prepare_n]
  exact ⟨_, _, rfl⟩

end Generated

section ZeroVector
variable {α : Type} [Field α]

theorem vsum_zipWith_zero (k : Nat) (l : List α) :
    vsum (List.zipWith (fun c m => c * m) (List.replicate k 0) l) = 0 := by
  induction k generalizing l with
  | zero => simp [vsum]
  | succ k ih =>
    cases l with
    | nil => simp [vsum]
    | cons m l => simpa [vsum, List.replicate_succ] using ih l

theorem zipWith_div_zero (k : Nat) (l : List α) :
    List.zipWith (fun c s => c / s) (List.replicate k 0) l =
      List.replicate (min k l.length) 0 := by
  induction k generalizing l with
  | zero => simp
  | succ k ih =>
    cases l with
    | nil => simp
    | cons m l => simp [List.replicate_succ, ih l, Nat.succ_min_succ]

end ZeroVector

/-! ## The claims -/

section Claims
variable {α : Type} [Field α]

/-- C1. Dense `recover`, modes 1, 2 and 3, for a coefficient vector `c` of length `p`:
mode 1 returns `c_i / scaleX_i * scaleY` and `beta0 = 0`; mode 2 returns `c_i * scaleY` and
`beta0 = meanY - sum_i c'_i * meanX_i`; mode 3 returns `c_i / scaleX_i * scaleY` and
`beta0 = meanY - sum_i c'_i * meanX_i`, with `c'` the returned coefficients. -/
theorem recover_dense_table (ds : DataStd α) (beta0 : α) (c : List α)
    (hc : c.length = ds.p) (hs : ds.flag = 1 ∨ ds.flag = 3 → ds.scaleX.length = ds.p)
    (hm : ds.flag = 2 ∨ ds.flag = 3 → ds.meanX.length = ds.p) :
    (ds.flag = 1 →
      (∀ i < ds.p, arrAt (ds.recover beta0 c).2 i = arrAt c i / arrAt ds.scaleX i * ds.scaleY) ∧
      (ds.recover beta0 c).1 = 0) ∧
    (ds.flag = 2 →
      (∀ i < ds.p, arrAt (ds.recover beta0 c).2 i = arrAt c i * ds.scaleY) ∧
      (ds.recover beta0 c).1 =
        ds.meanY - ∑ i in Finset.range ds.p, arrAt (ds.recover beta0 c).2 i * arrAt ds.meanX i) ∧
    (ds.flag = 3 →
      (∀ i < ds.p, arrAt (ds.recover beta0 c).2 i = arrAt c i / arrAt ds.scaleX i * ds.scaleY) ∧
      (ds.recover beta0 c).1 =
        ds.meanY - ∑ i in Finset.range ds.p, arrAt (ds.recover beta0 c).2 i * arrAt ds.meanX i) := by
  refine ⟨?_, ?_, ?_⟩
  · intro hf
    have hs' := hs (Or.inl hf)
    refine ⟨?_, by simp [DataStd.recover, hf]⟩
    intro i hi
    simp only [DataStd.recover, hf]
    rw [arrAt_map _ _ _ (by simp [hc, hs', hi]), arrAt_zipWith _ _ _ _ (by omega) (by omega)]
  · intro hf
    have hm' := hm (Or.inl hf)
    refine ⟨?_, ?_⟩
    · intro i hi
      simp only [DataStd.recover, hf]
      rw [arrAt_map _ _ _ (by omega)]
    · simp only [DataStd.recover, hf]
      rw [vsum_zipWith_mul _ _ ds.p (by simp [hc]) hm']
  · intro hf
    have hs' := hs (Or.inr hf)
    have hm' := hm (Or.inr hf)
    refine ⟨?_, ?_⟩
    · intro i hi
      simp only [DataStd.recover, hf]
      rw [arrAt_map _ _ _ (by simp [hc, hs', hi]), arrAt_zipWith _ _ _ _ (by omega) (by omega)]
    · simp only [DataStd.recover, hf]
      rw [vsum_zipWith_mul _ _ ds.p (by simp [hc, hs']) hm']

/-- Witness of C1: a mode-3 state with two predictors. -/
theorem recover_dense_table_witness :
    (∀ i < 2, arrAt ((⟨3, 5, 2, 10, 1, [1, 2], [2, 4]⟩ : DataStd ℚ).recover 7 [6, 8]).2 i =
        arrAt [6, 8] i / arrAt [2, 4] i * 1) ∧
      ((⟨3, 5, 2, 10, 1, [1, 2], [2, 4]⟩ : DataStd ℚ).recover 7 [6, 8]).1 =
        10 - ∑ i in Finset.range 2,
          arrAt ((⟨3, 5, 2, 10, 1, [1, 2], [2, 4]⟩ : DataStd ℚ).recover 7 [6, 8]).2 i *
            arrAt [1, 2] i :=
  (recover_dense_table (⟨3, 5, 2, 10, 1, [1, 2], [2, 4]⟩ : DataStd ℚ) 7 [6, 8] rfl
    (fun _ => rfl) (fun _ => rfl)).2.2 rfl

/-- C2, the code at the failing input: mode 3, one row, the columns `[0]` and `[2]`,
`Y = [3]` and the weight `[1]`.  The weighted loop of `standardize` stores `scaleX = [0, 2]`.
For the sparse vector with the one entry `(1, 4)` and the dense vector `[0, 4]` with the
same values, the dense `recover` divides `coef[0] = 0` by `scaleX[0] = 0` and has no value,
while the sparse `recover` divides the stored entry only and returns `beta0 = -1` and the
entry `(1, 2)`. -/
theorem recover_dense_divides_by_zero :
    ((DataStd.new 1 2 true true).standardize Real.sqrt [[0], [2]] [3] [1]).ds.scaleX = [0, 2] ∧
    SpVec.toDense (⟨2, [(1, 4)]⟩ : SpVec ℝ) = [0, 4] ∧
    ((DataStd.new 1 2 true true).standardize Real.sqrt [[0], [2]] [3] [1]).ds.recoverChecked 0
      (SpVec.toDense ⟨2, [(1, 4)]⟩) = none ∧
    ((DataStd.new 1 2 true true).standardize Real.sqrt [[0], [2]] [3] [1]).ds.recoverSparseChecked
      0 ⟨2, [(1, 4)]⟩ = some (-1, ⟨2, [(1, 2)]⟩) := by
  have h4 : Real.sqrt (2 * 2) = 2 := Real.sqrt_mul_self (by norm_num)
  have hst : ((DataStd.new 1 2 true true).standardize Real.sqrt [[0], [2]] [3] [1]).ds =
      ⟨3, 1, 2, 3, 1, [0, 2], [0, 2]⟩ := by
    simp [DataStd.standardize, standardizeX, standardizeY, standardizeY_case3, DataStd.new,
      forLoop, bodyW3, col, vmean, vnorm, vsum, timesSqrtWts, h4]
  rw [hst]
  refine ⟨rfl, ?_, ?_, ?_⟩
  · simp [SpVec.toDense, SpVec.coeff, List.range_succ]
  · simp [DataStd.recoverChecked, SpVec.toDense]
  · simp [DataStd.recoverSparseChecked, DataStd.recoverSparse, elementwise_quot, SpVec.scale,
      sparse_inner_product, arrAt]
    norm_num

end Claims

section ClaimsReal

/-- C3. Mode 1, no weights, `X` of `n > 0` rows and `p` columns: `scaleX[i]` is
`sqrt(sum_j X[j,i]^2 / n)`, or 1 when that is exactly 0; column `i` becomes the column
divided by `scaleX[i]`; `Y` is unchanged and `scaleY = 1`; and `recover` afterwards sends a
coefficient `c_i` to `c_i / scaleX[i]`. -/
theorem standardize_mode1_unweighted (n p : Nat) (_hn : 0 < n) (X : List (List ℝ))
    (Y : List ℝ) (hX : X.length = p) (hcol : ∀ c ∈ X, c.length = n) :
    (∀ i < p,
      arrAt ((DataStd.new n p true false).standardize Real.sqrt X Y []).ds.scaleX i =
        (if Real.sqrt (((col X i).map (fun x => x ^ 2)).sum / n) = 0 then 1
          else Real.sqrt (((col X i).map (fun x => x ^ 2)).sum / n)) ∧
      col ((DataStd.new n p true false).standardize Real.sqrt X Y []).X i =
        (col X i).map (fun x => x /
          arrAt ((DataStd.new n p true false).standardize Real.sqrt X Y []).ds.scaleX i)) ∧
    ((DataStd.new n p true false).standardize Real.sqrt X Y []).Y = Y ∧
    ((DataStd.new n p true false).standardize Real.sqrt X Y []).ds.scaleY = 1 ∧
    ∀ (beta0 : ℝ) (c : List ℝ), c.length = p → ∀ i < p,
      arrAt (((DataStd.new n p true false).standardize Real.sqrt X Y []).ds.recover beta0 c).2 i =
        arrAt c i /
          arrAt ((DataStd.new n p true false).standardize Real.sqrt X Y []).ds.scaleX i := by
  obtain ⟨hY, hsY, hcols⟩ := standardize_U1 Real.sqrt n p X Y
  obtain ⟨h1, _, h3, _, h5, _⟩ :=
    standardize_shape Real.sqrt (DataStd.new n p true false : DataStd ℝ) X Y []
  refine ⟨?_, hY, hsY, ?_⟩
  · intro i hi
    obtain ⟨hs, hc⟩ := hcols i hi
    have hlen := col_length X n i hcol (by omega)
    refine ⟨?_, ?_⟩
    · rw [hs, scaleU1, sd_n_real _ n hlen]
    · rw [hc, hs]
      exact List.map_congr_left (fun x _ => mul_one_div x _)
  · intro beta0 c hc i hi
    have hf : ((DataStd.new n p true false).standardize Real.sqrt X Y []).ds.flag = 1 := h1
    have hp : ((DataStd.new n p true false).standardize Real.sqrt X Y []).ds.p = p := h3
    have hsl :
        ((DataStd.new n p true false).standardize Real.sqrt X Y []).ds.scaleX.length = p := by
      rw [h5]; simp [DataStd.new]
    simp only [DataStd.recover, hf, hsY, mul_one, List.map_id']
    rw [arrAt_zipWith _ _ _ _ (by omega) (by omega)]

/-- Witness of C3: one row, one column. -/
theorem standardize_mode1_unweighted_witness :
    arrAt ((DataStd.new 1 1 true false).standardize Real.sqrt [[2]] [5] []).ds.scaleX 0 =
      (if Real.sqrt (((col [[(2 : ℝ)]] 0).map (fun x => x ^ 2)).sum / (1 : Nat)) = 0 then 1
        else Real.sqrt (((col [[(2 : ℝ)]] 0).map (fun x => x ^ 2)).sum / (1 : Nat))) :=
  ((standardize_mode1_unweighted 1 1 (by norm_num) [[2]] [5] rfl (by simp)).1 0
    (by norm_num)).1

/-- Counterexample to C4 as stated: in mode 3 the entries of `X` do change. -/
theorem standardize_mode3_changes_X :
    ((DataStd.new 1 1 true true).standardize Real.sqrt [[2]] [0] []).X ≠ [[2]] := by
  have h := (standardize_mode3 Real.sqrt 1 1 [[(2 : ℝ)]] [0] []).2.2.2 0 (by norm_num)
  have hs : scale3 Real.sqrt (1 / Real.sqrt ((1 : Nat) : ℝ)) [] (col [[(2 : ℝ)]] 0) = 2 := by
    have h4 : Real.sqrt (2 * 2) = 2 := Real.sqrt_mul_self (by norm_num)
    simp [scale3, scaleU3, rawScale3, vnorm, vsum, col, h4]
  intro hX
  have hc := h.2.2
  rw [hX, hs] at hc
  simp [col] at hc

/-- C4, amended. In mode 2, with or without weights, `standardize` leaves `X` and `Y` as
they were. In mode 3 it leaves `Y` as it was and replaces column `i` of `X` by the column
divided by `scaleX[i]`, no mean being subtracted. In both modes `recover` on the all-zero
coefficient vector yields `beta0 = meanY` (in mode 3, when no `scaleX[i]` is zero). -/
theorem standardize_modes23_frame {α : Type} [Field α] [DecidableEq α] (sqrt : α → α)
    (n p : Nat) (X : List (List α)) (Y wts : List α) (beta0 : α) :
    (((DataStd.new n p false true).standardize sqrt X Y wts).X = X ∧
      ((DataStd.new n p false true).standardize sqrt X Y wts).Y = Y ∧
      (((DataStd.new n p false true).standardize sqrt X Y wts).ds.recover beta0
          (List.replicate p 0)).1 =
        ((DataStd.new n p false true).standardize sqrt X Y wts).ds.meanY) ∧
    (((DataStd.new n p true true).standardize sqrt X Y wts).Y = Y ∧
      (∀ i < p, col ((DataStd.new n p true true).standardize sqrt X Y wts).X i =
        (col X i).map (fun x => x /
          arrAt ((DataStd.new n p true true).standardize sqrt X Y wts).ds.scaleX i)) ∧
      ((∀ i < p, arrAt ((DataStd.new n p true true).standardize sqrt X Y wts).ds.scaleX i ≠ 0) →
        (((DataStd.new n p true true).standardize sqrt X Y wts).ds.recover beta0
            (List.replicate p 0)).1 =
          ((DataStd.new n p true true).standardize sqrt X Y wts).ds.meanY)) := by
  constructor
  · obtain ⟨hY, hX, hsY, _⟩ := standardize_mode2 sqrt n p X Y wts
    obtain ⟨h1, _⟩ := standardize_shape sqrt (DataStd.new n p false true : DataStd α) X Y wts
    have hf : ((DataStd.new n p false true).standardize sqrt X Y wts).ds.flag = 2 := h1
    refine ⟨hX, hY, ?_⟩
    simp only [DataStd.recover, hf, hsY, mul_one, List.map_id', vsum_zipWith_zero, sub_zero]
  · obtain ⟨hY, hsY, _, hcols⟩ := standardize_mode3 sqrt n p X Y wts
    obtain ⟨h1, _⟩ := standardize_shape sqrt (DataStd.new n p true true : DataStd α) X Y wts
    have hf : ((DataStd.new n p true true).standardize sqrt X Y wts).ds.flag = 3 := h1
    refine ⟨hY, ?_, ?_⟩
    · intro i hi
      obtain ⟨_, hs, hc⟩ := hcols i hi
      rw [hc, hs]
    · intro _
      simp only [DataStd.recover, hf, hsY, mul_one, List.map_id', zipWith_div_zero,
        vsum_zipWith_zero, sub_zero]

/-- C5. Mode 3, no weights, `X` of `n > 0` rows and `p` columns: `meanX[i]` is the column
sum over `n`; `scaleX[i]` is `sqrt(sum_j X[j,i]^2 / n)` of the uncentred column, or 1 when
that is exactly 0; column `i` becomes the original column divided by `scaleX[i]`, no mean
subtracted; `meanY` is the sum of `Y` over `n`; `Y` is unchanged and `scaleY = 1`. -/
theorem standardize_mode3_unweighted (n p : Nat) (_hn : 0 < n) (X : List (List ℝ))
    (Y : List ℝ) (hX : X.length = p) (hcol : ∀ c ∈ X, c.length = n) (hY : Y.length = n) :
    (∀ i < p,
      arrAt ((DataStd.new n p true true).standardize Real.sqrt X Y []).ds.meanX i =
        (col X i).sum / n ∧
      arrAt ((DataStd.new n p true true).standardize Real.sqrt X Y []).ds.scaleX i =
        (if Real.sqrt (((col X i).map (fun x => x ^ 2)).sum / n) = 0 then 1
          else Real.sqrt (((col X i).map (fun x => x ^ 2)).sum / n)) ∧
      col ((DataStd.new n p true true).standardize Real.sqrt X Y []).X i =
        (col X i).map (fun x => x /
          arrAt ((DataStd.new n p true true).standardize Real.sqrt X Y []).ds.scaleX i)) ∧
    ((DataStd.new n p true true).standardize Real.sqrt X Y []).ds.meanY = Y.sum / n ∧
    ((DataStd.new n p true true).standardize Real.sqrt X Y []).Y = Y ∧
    ((DataStd.new n p true true).standardize Real.sqrt X Y []).ds.scaleY = 1 := by
  obtain ⟨hYu, hsY, hmY, hcols⟩ := standardize_mode3 Real.sqrt n p X Y []
  refine ⟨?_, ?_, hYu, hsY⟩
  · intro i hi
    obtain ⟨hm, hs, hc⟩ := hcols i hi
    have hlen := col_length X n i hcol (by omega)
    have hsc : scale3 Real.sqrt (1 / Real.sqrt (n : ℝ)) [] (col X i) =
        (if Real.sqrt (((col X i).map (fun x => x ^ 2)).sum / n) = 0 then 1
          else Real.sqrt (((col X i).map (fun x => x ^ 2)).sum / n)) := by
      simp only [scale3, List.length_nil, ne_eq, not_true_eq_false, if_false, scaleU3,
        rawScale3_real]
    refine ⟨?_, ?_, ?_⟩
    · rw [hm, vmean, vsum, hlen]
    · rw [hs, hsc]
    · rw [hc, hs]
  · rw [hmY]
    simp [vmean, vsum, hY]

/-- Witness of C5: two rows, one column. -/
theorem standardize_mode3_unweighted_witness :
    ((DataStd.new 2 1 true true).standardize Real.sqrt [[3, 4]] [1, 2] []).ds.meanY =
      ([1, 2] : List ℝ).sum / (2 : Nat) :=
  (standardize_mode3_unweighted 2 1 (by norm_num) [[3, 4]] [1, 2] rfl (by simp) rfl).2.1

/-- C6, the code at the failing input: in mode 3 with a weight vector an all-zero column
is stored with `scaleX[0] = 0`, where the same column without weights gets `scaleX[0] = 1`. -/
theorem standardize_mode3_weighted_zero_scale :
    arrAt ((DataStd.new 1 1 true true).standardize Real.sqrt [[0]] [0] [1]).ds.scaleX 0 = 0 ∧
    arrAt ((DataStd.new 1 1 true true).standardize Real.sqrt [[0]] [0] []).ds.scaleX 0 = 1 := by
  have h := ((standardize_mode3 Real.sqrt 1 1 [[(0 : ℝ)]] [0] [1]).2.2.2 0 (by norm_num)).2.1
  have g := ((standardize_mode3 Real.sqrt 1 1 [[(0 : ℝ)]] [0] []).2.2.2 0 (by norm_num)).2.1
  rw [h, g]
  constructor
  · simp [scale3, rawScale3, vnorm, vsum, col]
  · simp [scale3, scaleU3, rawScale3, vnorm, vsum, col]

/-- C7. For every mode and every `X`, `Y` and weights, `get_scaleY()` is 1 on the
constructed object and 1 again after `standardize`, so the driver's conversion
`lambda * n / scaleY` is `lambda * n`, for the transform `oem_fit` builds as for any other. -/
theorem get_scaleY_is_one {α : Type} [Field α] [DecidableEq α] {σ : Type} (sqrt : α → α)
    (n p : Nat) (std icpt : Bool) (X : List (List α)) (Y wts : List α) (lambda : α)
    (S : Solver σ α) (xx : NumericMatrix α) (family : String) (pf : List α) (opts : Opts α) :
    (DataStd.new n p std icpt : DataStd α).get_scaleY = 1 ∧
    ((DataStd.new n p std icpt).standardize sqrt X Y wts).ds.get_scaleY = 1 ∧
    ilambdaOf lambda n ((DataStd.new n p std icpt).standardize sqrt X Y wts).ds.get_scaleY =
      lambda * n ∧
    ilambdaOf lambda xx.nrow (oem_prepare S sqrt xx Y family pf std icpt opts).datstd.get_scaleY =
      lambda * xx.nrow := by
  have h0 : (DataStd.new n p std icpt : DataStd α).get_scaleY = 1 := rfl
  have h1 : ((DataStd.new n p std icpt).standardize sqrt X Y wts).ds.get_scaleY = 1 :=
    (standardize_shape sqrt (DataStd.new n p std icpt : DataStd α) X Y wts).2.2.2.2.2 rfl
  refine ⟨h0, h1, ?_, ?_⟩
  · rw [h1]; simp [ilambdaOf]
  · rw [oem_prepare_scaleY]; simp [ilambdaOf]

end ClaimsReal

section ClaimsDriver

/-- C8. With an empty penalty sequence, a count `c >= 2`, a ratio `0 < r < 1` and a
constructed solver reporting `get_lambda_zero() > 0`, `oem_fit` returns exactly `c` penalties
`exp(log(lmax) + k * (log(r * lmax) - log(lmax)) / (c - 1))`, `k = 0..c-1`, where
`lmax = get_lambda_zero() / n * scaleY`: the first is `lmax`, the last is `r * lmax`, each is
strictly below the one before, and consecutive penalties have one constant ratio. -/
theorem oem_fit_auto_lambda {σ : Type} (S : Solver σ ℝ) (xx : NumericMatrix ℝ) (yy : List ℝ)
    (family : String) (c : Nat) (r : ℝ) (pf : List ℝ) (std icpt : Bool) (opts : Opts ℝ)
    (s0 : σ) (lmax : ℝ)
    (hs : (oem_prepare S Real.sqrt xx yy family pf std icpt opts).solver = some s0)
    (hc : 2 ≤ c) (hr0 : 0 < r) (hr1 : r < 1) (hlz : 0 < (S.get_lambda_zero s0).1)
    (hlmax : lmax = (S.get_lambda_zero s0).1 / (xx.nrow : ℝ) *
      (oem_prepare S Real.sqrt xx yy family pf std icpt opts).datstd.get_scaleY) :
    ∃ res : FitResult ℝ,
      (oem_fit S Real.sqrt Real.exp Real.log xx yy family [] c r pf std icpt opts).outcome =
        Outcome.returned res ∧
      res.lambda.length = c ∧
      (∀ k < c, arrAt res.lambda k =
        Real.exp (Real.log lmax + k * (Real.log (r * lmax) - Real.log lmax) / ((c : ℝ) - 1))) ∧
      arrAt res.lambda 0 = lmax ∧
      arrAt res.lambda (c - 1) = r * lmax ∧
      (∀ k, k + 1 < c → arrAt res.lambda (k + 1) < arrAt res.lambda k) ∧
      (∀ k, k + 1 < c → arrAt res.lambda (k + 1) / arrAt res.lambda k =
        Real.exp ((Real.log (r * lmax) - Real.log lmax) / ((c : ℝ) - 1))) := by
  obtain ⟨hn, _⟩ := oem_prepare_solver S Real.sqrt xx yy family pf std icpt opts s0 hs
  have hsY := oem_prepare_scaleY S Real.sqrt xx yy family pf std icpt opts
  have hnpos : (0 : ℝ) < (xx.nrow : ℝ) := by
    have : 0 < xx.nrow := by omega
    exact_mod_cast this
  have hl : 0 < lmax := by
    rw [hlmax, hsY, mul_one]
    exact div_pos hlz hnpos
  obtain ⟨b, ni, hout⟩ := oem_fit_generated S Real.sqrt Real.exp Real.log xx yy family c r pf
    std icpt opts s0 hs
  rw [← hlmax] at hout
  exact ⟨_, hout, linSpaced_exp_log c hc lmax r hl hr0 hr1 _ rfl⟩

/-- Witness of C8: five penalties with ratio 1/100 from the stateless solver. -/
theorem oem_fit_auto_lambda_witness :
    ∃ res : FitResult ℝ,
      (oem_fit (demoSolver 1) Real.sqrt Real.exp Real.log ⟨3, 1, [[1, 2, 3]]⟩ [1, 2, 3]
        "gaussian" [] 5 (1 / 100) [1] true true ⟨100, 5, 0, 0⟩).outcome = Outcome.returned res ∧
      res.lambda.length = 5 ∧
      (∀ k < 5, arrAt res.lambda k =
        Real.exp (Real.log (1 / 3) + k * (Real.log (1 / 100 * (1 / 3)) - Real.log (1 / 3)) /
          (((5 : Nat) : ℝ) - 1))) ∧
      arrAt res.lambda 0 = 1 / 3 ∧
      arrAt res.lambda (5 - 1) = 1 / 100 * (1 / 3) ∧
      (∀ k, k + 1 < 5 → arrAt res.lambda (k + 1) < arrAt res.lambda k) ∧
      (∀ k, k + 1 < 5 → arrAt res.lambda (k + 1) / arrAt res.lambda k =
        Real.exp ((Real.log (1 / 100 * (1 / 3)) - Real.log (1 / 3)) / (((5 : Nat) : ℝ) - 1))) :=
  oem_fit_auto_lambda (demoSolver 1) ⟨3, 1, [[1, 2, 3]]⟩ [1, 2, 3] "gaussian" 5 (1 / 100) [1]
    true true ⟨100, 5, 0, 0⟩ () (1 / 3) (by simp [oem_prepare]) (by norm_num) (by norm_num)
    (by norm_num) (by simp [demoSolver])
    (by
      rw [oem_prepare_scaleY]
      simp [demoSolver])

/-- C9. With a constructed solver and an explicit penalty sequence of length `k >= 1`, the
calls the solver object receives from `oem_fit`, as the solver itself logs them
(`recordCalls S`, whose run is the run on `S`), are in order `init(lambda_0 * n / scaleY)`,
`solve(maxit)`, `get_gamma`, then `init_warm(lambda_i * n / scaleY)`, `solve(maxit)`,
`get_gamma` for `i = 1..k-1`: one cold `init` and `k - 1` calls of `init_warm`.  Here `st` is
the state in which the loop of the run ends, and the trace of the run is that log. -/
theorem oem_fit_call_trace {α : Type} [Field α] [DecidableEq α] {σ : Type} (S : Solver σ α)
    (sqrt exp log : α → α) (xx : NumericMatrix α) (yy : List α) (family : String)
    (lambda_ : List α) (nlambda_ : Nat) (lmin_ratio_ : α) (pf : List α) (std icpt : Bool)
    (opts : Opts α) (s0 : σ) (hk : 1 ≤ lambda_.length)
    (hs : (oem_prepare S sqrt xx yy family pf std icpt opts).solver = some s0) :
    ∃ st : LoopState (σ × List (Call α)) α,
      st = forLoop lambda_.length
        (oem_loop_body (recordCalls S)
          (oem_prepare (recordCalls S) sqrt xx yy family pf std icpt opts) lambda_ opts.maxit)
        { solver := (s0, []), trace := [], beta := ⟨xx.ncol + 1, lambda_.length, []⟩,
          niter := List.replicate lambda_.length 0 } ∧
      (oem_prepare (recordCalls S) sqrt xx yy family pf std icpt opts).solver = some (s0, []) ∧
      oem_fit (recordCalls S) sqrt exp log xx yy family lambda_ nlambda_ lmin_ratio_ pf std icpt
          opts =
        { trace := st.trace, outcome := Outcome.returned ⟨lambda_, st.beta, st.niter⟩ } ∧
      oem_fit (recordCalls S) sqrt exp log xx yy family lambda_ nlambda_ lmin_ratio_ pf std icpt
          opts =
        oem_fit S sqrt exp log xx yy family lambda_ nlambda_ lmin_ratio_ pf std icpt opts ∧
      st.solver.2 =
        specTrace xx.nrow (oem_prepare S sqrt xx yy family pf std icpt opts).datstd.get_scaleY
          opts.maxit lambda_ ∧
      st.solver.2.countP Call.isInit = 1 ∧
      st.solver.2.countP Call.isInitWarm = lambda_.length - 1 ∧
      (oem_fit S sqrt exp log xx yy family lambda_ nlambda_ lmin_ratio_ pf std icpt
        opts).trace = st.solver.2 := by
  obtain ⟨ps, pd, pn, pp, _⟩ := oem_prepare_recordCalls S sqrt xx yy family pf std icpt opts
  rw [hs] at ps
  have hk' : ¬ lambda_.length < 1 := by omega
  have hlog := oem_loop_log S (oem_prepare (recordCalls S) sqrt xx yy family pf std icpt opts)
    lambda_ opts.maxit
    { solver := (s0, []), trace := [], beta := ⟨xx.ncol + 1, lambda_.length, []⟩,
      niter := List.replicate lambda_.length 0 } lambda_.length (Nat.le_refl _)
  rw [List.take_length, pd, pn, oem_prepare_n] at hlog
  simp only [List.nil_append] at hlog
  have hfit := oem_fit_of_solver (recordCalls S) sqrt exp log xx yy family lambda_ nlambda_
    lmin_ratio_ pf std icpt opts (s0, []) _ _ rfl ps rfl
  have hst : oem_start (recordCalls S) exp log
      (oem_prepare (recordCalls S) sqrt xx yy family pf std icpt opts) lambda_ nlambda_
      lmin_ratio_ (s0, []) =
      (lambda_,
        { solver := (s0, []), trace := [], beta := ⟨xx.ncol + 1, lambda_.length, []⟩,
          niter := List.replicate lambda_.length 0 }) := by
    simp only [oem_start, hk', if_false]
    rfl
  rw [hst] at hfit
  have ht := oem_fit_explicit S sqrt exp log xx yy family lambda_ nlambda_ lmin_ratio_ pf std
    icpt opts s0 hk hs
  refine ⟨_, rfl, ps, hfit, oem_fit_recordCalls S sqrt exp log xx yy family lambda_ nlambda_
    lmin_ratio_ pf std icpt opts, hlog, ?_, ?_, ?_⟩
  · rw [hlog]
    cases lambda_ with
    | nil => simp at hk
    | cons l rest =>
      simp [specTrace, List.countP_cons, Call.isInit, (countP_warmCalls _ _ _ rest).1]
  · rw [hlog]
    cases lambda_ with
    | nil => simp at hk
    | cons l rest =>
      simp [specTrace, List.countP_cons, Call.isInitWarm, (countP_warmCalls _ _ _ rest).2]
  · rw [hlog, ht]

/-- Witness of C9: the log of the recording solver for the penalties 10, 1, 1/10 on three
rows and one column. -/
theorem oem_fit_call_trace_witness :
    (forLoop 3
      (oem_loop_body (recordCalls (demoSolver 1))
        (oem_prepare (recordCalls (demoSolver 1)) Rat.sqrt ⟨3, 1, [[1, 2, 3]]⟩ [1, 2, 3]
          "gaussian" [1] true true ⟨100, 5, 0, 0⟩) [10, 1, 1 / 10] 100)
      { solver := ((), []), trace := [], beta := ⟨1 + 1, 3, []⟩,
        niter := List.replicate 3 0 }).solver.2 =
      [Call.init 30, Call.solve 100, Call.get_gamma, Call.init_warm 3, Call.solve 100,
        Call.get_gamma, Call.init_warm (3 / 10), Call.solve 100, Call.get_gamma] := by
  obtain ⟨st, h1, _, _, _, h5, _⟩ := oem_fit_call_trace (demoSolver 1) Rat.sqrt id id
    ⟨3, 1, [[1, 2, 3]]⟩ [1, 2, 3] "gaussian" [10, 1, 1 / 10] 0 0 [1] true true ⟨100, 5, 0, 0⟩
    () (by simp) (by simp [oem_prepare])
  rw [oem_prepare_scaleY] at h5
  rw [h1] at h5
  rw [show (3 : Nat) = ([10, 1, 1 / 10] : List ℚ).length from rfl]
  refine Eq.trans h5 ?_
  norm_num [specTrace, warmCalls]

/-- C10, the code at the failing input: with one row and one column (`n <= 2p`) the solver
pointer stays `NULL`, for the gaussian and for the binomial family, and the run ends by
calling `init` (or `get_lambda_zero`, when no penalty is supplied) through it; no error is
reported. -/
theorem oem_fit_wide_null_solver {σ : Type} (S : Solver σ ℝ) :
    oem_fit S Real.sqrt Real.exp Real.log ⟨1, 1, [[1]]⟩ [1] "gaussian" [1] 0 0 [1] false false
        ⟨100, 5, 0, 0⟩ =
      { trace := [], outcome := Outcome.nullSolverCall (Call.init 1) } ∧
    oem_fit S Real.sqrt Real.exp Real.log ⟨1, 1, [[1]]⟩ [1] "binomial" [1] 0 0 [1] false false
        ⟨100, 5, 0, 0⟩ =
      { trace := [], outcome := Outcome.nullSolverCall (Call.init 1) } ∧
    oem_fit S Real.sqrt Real.exp Real.log ⟨1, 1, [[1]]⟩ [1] "binomial" [] 5 (1 / 100) [1] false
        false ⟨100, 5, 0, 0⟩ =
      { trace := [], outcome := Outcome.nullSolverCall Call.get_lambda_zero } := by
  refine ⟨?_, ?_, ?_⟩
  · have h := oem_prepare_wide S Real.sqrt ⟨1, 1, [[1]]⟩ [1] "gaussian" [1] false false
      ⟨100, 5, 0, 0⟩ (by norm_num)
    have hy := oem_prepare_scaleY S Real.sqrt ⟨1, 1, [[1]]⟩ [1] "gaussian" [1] false false
      ⟨100, 5, 0, 0⟩
    simp [oem_fit, h, hy, ilambdaOf, arrAt, oem_prepare_n]
  · have h := oem_prepare_wide S Real.sqrt ⟨1, 1, [[1]]⟩ [1] "binomial" [1] false false
      ⟨100, 5, 0, 0⟩ (by norm_num)
    have hy := oem_prepare_scaleY S Real.sqrt ⟨1, 1, [[1]]⟩ [1] "binomial" [1] false false
      ⟨100, 5, 0, 0⟩
    simp [oem_fit, h, hy, ilambdaOf, arrAt, oem_prepare_n]
  · have h := oem_prepare_wide S Real.sqrt ⟨1, 1, [[1]]⟩ [1] "binomial" [1] false false
      ⟨100, 5, 0, 0⟩ (by norm_num)
    simp [oem_fit, h]

end ClaimsDriver

/-! ## Further lemmas on `standardize` and `recover` -/

section Mode0
variable {α : Type} [Field α]

theorem standardizeY_mode0 (sqrt : α → α) (ds : DataStd α) (Y wts : List α) (hf : ds.flag = 0) :
    standardizeY sqrt ds Y wts = (ds, Y) := by
  simp [standardizeY, hf]

theorem standardizeX_mode0 [DecidableEq α] (sqrt : α → α) (ds : DataStd α)
    (X : List (List α)) (wts : List α) (hf : ds.flag = 0) :
    standardizeX sqrt ds X wts = (ds, X) := by
  unfold standardizeX
  simp only [hf]
  split <;> rfl

/-- The sparse `recover` maps the stored values and keeps the indices and the size. -/
theorem recoverSparse_structure (ds : DataStd α) (beta0 : α) (sp : SpVec α) :
    (ds.recoverSparse beta0 sp).2.size = sp.size ∧
    (ds.recoverSparse beta0 sp).2.entries.map Prod.fst = sp.entries.map Prod.fst := by
  unfold DataStd.recoverSparse
  split <;> simp [elementwise_quot, SpVec.scale, List.map_map, Function.comp_def]

/-- Both forms of `recover` read only `scaleY` and, according to the mode, `scaleX`,
`meanX` and `meanY`. -/
theorem recover_congr (d1 d2 : DataStd α) (beta0 : α) (c : List α) (sp : SpVec α)
    (hf : d1.flag = d2.flag) (hy : d1.scaleY = d2.scaleY)
    (hS : d1.flag = 1 ∨ d1.flag = 3 → d1.scaleX = d2.scaleX)
    (hM : d1.flag = 2 ∨ d1.flag = 3 → d1.meanX = d2.meanX ∧ d1.meanY = d2.meanY) :
    d1.recover beta0 c = d2.recover beta0 c ∧
    d1.recoverSparse beta0 sp = d2.recoverSparse beta0 sp := by
  rcases Nat.lt_or_ge d1.flag 4 with hlt | hge
  · have hcases : d1.flag = 0 ∨ d1.flag = 1 ∨ d1.flag = 2 ∨ d1.flag = 3 := by omega
    rcases hcases with h | h | h | h
    · have h2 : d2.flag = 0 := by rw [← hf]; exact h
      simp [DataStd.recover, DataStd.recoverSparse, h, h2]
    · have h2 : d2.flag = 1 := by rw [← hf]; exact h
      have hs := hS (Or.inl h)
      simp [DataStd.recover, DataStd.recoverSparse, h, h2, hs, hy]
    · have h2 : d2.flag = 2 := by rw [← hf]; exact h
      obtain ⟨hm, hmy⟩ := hM (Or.inl h)
      simp [DataStd.recover, DataStd.recoverSparse, h, h2, hm, hmy, hy]
    · have h2 : d2.flag = 3 := by rw [← hf]; exact h
      have hs := hS (Or.inr h)
      obtain ⟨hm, hmy⟩ := hM (Or.inr h)
      simp [DataStd.recover, DataStd.recoverSparse, h, h2, hs, hm, hmy, hy]
  · obtain ⟨k, hk⟩ : ∃ k, d1.flag = k + 4 := ⟨d1.flag - 4, by omega⟩
    have h2 : d2.flag = k + 4 := by rw [← hf]; exact hk
    simp [DataStd.recover, DataStd.recoverSparse, hk, h2]

end Mode0

section Modes2
variable {α : Type} [Field α] [DecidableEq α]

theorem standardizeX_mode1_any (sqrt : α → α) (ds : DataStd α) (X : List (List α))
    (wts : List α) (hf : ds.flag = 1) :
    standardizeX sqrt ds X wts =
      forLoop ds.p (genBody none (some (scale1 sqrt wts))
        (fun c => c.map (fun x => x * (1 / scale1 sqrt wts c)))) (ds, X) := by
  unfold standardizeX
  simp only [hf]
  by_cases hw : wts.length ≠ 0
  · rw [if_pos hw, bodyW1_eq]
    simp only [scale1, if_pos hw]
  · rw [if_neg hw, bodyU1_eq]
    simp only [scale1, if_neg hw]

theorem standardizeX_mode2_any (sqrt : α → α) (ds : DataStd α) (X : List (List α))
    (wts : List α) (hf : ds.flag = 2) :
    standardizeX sqrt ds X wts =
      forLoop ds.p (genBody (some (mean2 sqrt wts)) none
        (fun c => c.map (fun x => x - 0 * mean2 sqrt wts c))) (ds, X) := by
  unfold standardizeX
  simp only [hf]
  by_cases hw : wts.length ≠ 0
  · rw [if_pos hw, bodyW2_eq]
    simp only [mean2, if_pos hw]
  · rw [if_neg hw, bodyU2_eq]
    simp only [mean2, if_neg hw]

/-- Mode 1 on any object whose `scaleX` has `p` entries, with or without weights. -/
theorem standardize_mode1 (sqrt : α → α) (ds : DataStd α) (X : List (List α))
    (Y wts : List α) (hf : ds.flag = 1) (hs : ds.scaleX.length = ds.p) :
    (ds.standardize sqrt X Y wts).Y = Y ∧
    (ds.standardize sqrt X Y wts).ds.scaleY = 1 ∧
    ∀ i < ds.p,
      arrAt (ds.standardize sqrt X Y wts).ds.scaleX i = scale1 sqrt wts (col X i) ∧
      col (ds.standardize sqrt X Y wts).X i =
        (col X i).map (fun x => x * (1 / scale1 sqrt wts (col X i))) := by
  simp only [DataStd.standardize, standardizeY_mode1 sqrt _ Y wts hf]
  rw [standardizeX_mode1_any sqrt { ds with scaleY := 1 } X wts hf]
  refine ⟨trivial, (genLoop_frame _ _ _ _ _).2.2.2.2, ?_⟩
  intro i hi
  refine ⟨?_, ?_⟩
  · exact genLoop_scaleX_lt _ _ _ _ _ _ hi (by simp [hs, hi])
  · exact genLoop_col_lt _ _ _ (by simp) _ _ _ hi

/-- The means mode 2 stores, with or without weights. -/
theorem standardize_mode2_meanX (sqrt : α → α) (n p : Nat) (X : List (List α))
    (Y wts : List α) :
    ∀ i < p, arrAt ((DataStd.new n p false true).standardize sqrt X Y wts).ds.meanX i =
      mean2 sqrt wts (col X i) := by
  have hf : (DataStd.new n p false true : DataStd α).flag = 2 := rfl
  simp only [DataStd.standardize, standardizeY_mode2 sqrt _ Y wts hf]
  rw [standardizeX_mode2_any sqrt _ X wts rfl]
  intro i hi
  exact genLoop_meanX_lt _ _ _ _ _ _ hi (by simp [DataStd.new, hi])

end Modes2

/-! ## The claims, continued -/

section Claims5
variable {α : Type} [Field α] [DecidableEq α]

/-- C13. In mode 0, for every `X`, `Y` and weights, `standardize` leaves `X` and `Y` as they
were, and `recover`, dense and sparse, sets `beta0 = 0` and leaves the coefficients as they
were. -/
theorem mode0_is_identity (sqrt : α → α) (n p : Nat) (X : List (List α)) (Y wts : List α)
    (beta0 : α) (c : List α) (sp : SpVec α) :
    ((DataStd.new n p false false).standardize sqrt X Y wts).X = X ∧
    ((DataStd.new n p false false).standardize sqrt X Y wts).Y = Y ∧
    ((DataStd.new n p false false).standardize sqrt X Y wts).ds.recover beta0 c = (0, c) ∧
    ((DataStd.new n p false false).standardize sqrt X Y wts).ds.recoverSparse beta0 sp =
      (0, sp) := by
  have hf : (DataStd.new n p false false : DataStd α).flag = 0 := rfl
  have hst : (DataStd.new n p false false).standardize sqrt X Y wts =
      ⟨DataStd.new n p false false, X, Y⟩ := by
    simp only [DataStd.standardize, standardizeY_mode0 sqrt _ Y wts hf,
      standardizeX_mode0 sqrt _ X wts hf]
  rw [hst]
  refine ⟨rfl, rfl, ?_, ?_⟩
  · simp [DataStd.recover, hf]
  · simp [DataStd.recoverSparse, hf]

omit [DecidableEq α] in
/-- C14. In every mode the sparse `recover` keeps the sparsity structure: the size and the
list of stored indices after the call are those before it, so no entry is created or dropped
and an index that was not stored still reads zero; only stored values change. -/
theorem recoverSparse_keeps_structure (ds : DataStd α) (beta0 : α) (sp : SpVec α) :
    (ds.recoverSparse beta0 sp).2.size = sp.size ∧
    (ds.recoverSparse beta0 sp).2.entries.map Prod.fst = sp.entries.map Prod.fst ∧
    (ds.recoverSparse beta0 sp).2.entries.length = sp.entries.length ∧
    ∀ i, i ∉ sp.entries.map Prod.fst → (ds.recoverSparse beta0 sp).2.coeff i = 0 := by
  obtain ⟨h1, h2⟩ := recoverSparse_structure ds beta0 sp
  refine ⟨h1, h2, ?_, ?_⟩
  · have := congrArg List.length h2
    simpa using this
  · intro i hi
    rw [← h2] at hi
    generalize (ds.recoverSparse beta0 sp).2 = r at hi
    have : r.entries.find? (fun e => e.1 == i) = none := by
      rw [List.find?_eq_none]
      intro e he hei
      apply hi
      simp only [beq_iff_eq] at hei
      exact List.mem_map.mpr ⟨e, he, hei⟩
    simp [SpVec.coeff, this]

end Claims5

section Claims6
variable {α : Type} [Field α]

/-- C15. The result of `recover`, dense and sparse, depends only on the mode and on the
statistics populated for it.  Take any two states of the transform whatever, of the same
mode, that agree on `scaleX` in modes 1 and 3, on `meanX` and `meanY` in modes 2 and 3, and
on `scaleY` (which the constructor sets in every mode) in modes 1, 2 and 3; every other
field, `n` and `p` among them, is free in both.  Then `recover` returns the same `beta0` and
the same coefficients for the same input: the fields not populated for the mode are never
read. -/
theorem recover_reads_only_populated (d1 d2 : DataStd α) (beta0 : α) (c : List α)
    (sp : SpVec α) (hf : d1.flag = d2.flag)
    (hy : d1.flag = 1 ∨ d1.flag = 2 ∨ d1.flag = 3 → d1.scaleY = d2.scaleY)
    (hS : d1.flag = 1 ∨ d1.flag = 3 → d1.scaleX = d2.scaleX)
    (hM : d1.flag = 2 ∨ d1.flag = 3 → d1.meanX = d2.meanX ∧ d1.meanY = d2.meanY) :
    d1.recover beta0 c = d2.recover beta0 c ∧
    d1.recoverSparse beta0 sp = d2.recoverSparse beta0 sp := by
  by_cases h123 : d1.flag = 1 ∨ d1.flag = 2 ∨ d1.flag = 3
  · exact recover_congr d1 d2 beta0 c sp hf (hy h123) hS hM
  · rcases Nat.lt_or_ge d1.flag 4 with hlt | hge
    · have h0 : d1.flag = 0 := by omega
      have h2 : d2.flag = 0 := by rw [← hf]; exact h0
      simp [DataStd.recover, DataStd.recoverSparse, h0, h2]
    · obtain ⟨k, hk⟩ : ∃ k, d1.flag = k + 4 := ⟨d1.flag - 4, by omega⟩
      have h2 : d2.flag = k + 4 := by rw [← hf]; exact hk
      simp [DataStd.recover, DataStd.recoverSparse, hk, h2]

/-- Witness of C15: two mode-1 states with the same `scaleX = [2, 4]` and `scaleY = 1`, one
with `n = 5`, `meanY = 0` and an empty `meanX`, the other with `n = 7`, `meanY = 99` and
`meanX = [8, 9]`. -/
theorem recover_reads_only_populated_witness :
    (⟨1, 5, 2, 0, 1, [], [2, 4]⟩ : DataStd ℚ).recover 0 [6, 8] =
      (⟨1, 7, 2, 99, 1, [8, 9], [2, 4]⟩ : DataStd ℚ).recover 0 [6, 8] :=
  (recover_reads_only_populated (⟨1, 5, 2, 0, 1, [], [2, 4]⟩ : DataStd ℚ)
    ⟨1, 7, 2, 99, 1, [8, 9], [2, 4]⟩ 0 [6, 8] ⟨2, []⟩ rfl (fun _ => rfl) (fun _ => rfl)
    (fun h => by simp at h)).1

end Claims6

section Claims7
variable {α : Type} [Field α] [DecidableEq α]

end Claims7

section RealLemmas2

theorem sumsq_nonneg (c : List ℝ) : 0 ≤ (c.map (fun x => x ^ 2)).sum := by
  apply List.sum_nonneg
  intro y hy
  obtain ⟨x, _, rfl⟩ := List.mem_map.mp hy
  positivity

theorem sumsq_pos (c : List ℝ) (h : ∃ x ∈ c, x ≠ 0) : 0 < (c.map (fun x => x ^ 2)).sum := by
  induction c with
  | nil => obtain ⟨x, hx, _⟩ := h; simp at hx
  | cons a c ih =>
    simp only [List.map_cons, List.sum_cons]
    have hc := sumsq_nonneg c
    by_cases ha : a = 0
    · subst ha
      obtain ⟨x, hx, hx0⟩ := h
      rcases List.mem_cons.mp hx with hxa | hxc
      · exact absurd hxa hx0
      · have := ih ⟨x, hxc, hx0⟩
        linarith
    · have : 0 < a ^ 2 := by positivity
      linarith

theorem sumsq_zero (c : List ℝ) (h : ∀ x ∈ c, x = 0) : (c.map (fun x => x ^ 2)).sum = 0 := by
  induction c with
  | nil => simp
  | cons a c ih =>
    have ha : a = 0 := h a (by simp)
    simp [ha, ih (fun x hx => h x (by simp [hx]))]

theorem sumsq_map_mul (c : List ℝ) (a : ℝ) :
    ((c.map (fun x => x * a)).map (fun x => x ^ 2)).sum =
      a ^ 2 * (c.map (fun x => x ^ 2)).sum := by
  induction c with
  | nil => simp
  | cons x c ih =>
    simp only [List.map_cons, List.sum_cons, ih]
    ring

/-- The scale mode 1 stores, over the reals, for a column of `n` entries. -/
theorem scaleU1_real (c : List ℝ) (n : Nat) (h : c.length = n) :
    scaleU1 Real.sqrt c =
      (if Real.sqrt ((c.map (fun x => x ^ 2)).sum / n) = 0 then 1
        else Real.sqrt ((c.map (fun x => x ^ 2)).sum / n)) := by
  rw [scaleU1, sd_n_real c n h]

/-- A column with a nonzero entry, once multiplied by the inverse of its scale, has sum of
squares `n`. -/
theorem sumsq_scaled (c : List ℝ) (n : Nat) (h : c.length = n) (hnz : ∃ x ∈ c, x ≠ 0) :
    ((c.map (fun x => x * (1 / scaleU1 Real.sqrt c))).map (fun x => x ^ 2)).sum = (n : ℝ) := by
  have hS := sumsq_pos c hnz
  have hn : 0 < n := by
    obtain ⟨x, hx, _⟩ := hnz
    have := List.length_pos_of_mem hx
    omega
  have hnR : (0 : ℝ) < n := by exact_mod_cast hn
  have hq : (0 : ℝ) < (c.map (fun x => x ^ 2)).sum / (n : ℝ) := div_pos hS hnR
  have hr : 0 < Real.sqrt ((c.map (fun x => x ^ 2)).sum / n) := Real.sqrt_pos.mpr hq
  rw [sumsq_map_mul, scaleU1_real c n h, if_neg (ne_of_gt hr), one_div, inv_pow,
    Real.sq_sqrt (le_of_lt hq)]
  field_simp

/-- An all-zero column has scale 1 and is left as it is. -/
theorem scaleU1_zero_col (c : List ℝ) (h : ∀ x ∈ c, x = 0) : scaleU1 Real.sqrt c = 1 := by
  rw [scaleU1_real c c.length rfl, sumsq_zero c h]
  simp

/-- A column whose sum of squares is its length `n > 0` has scale 1. -/
theorem scaleU1_unit_col (c : List ℝ) (n : Nat) (h : c.length = n) (hn : 0 < n)
    (hs : (c.map (fun x => x ^ 2)).sum = (n : ℝ)) : scaleU1 Real.sqrt c = 1 := by
  have hnR : (n : ℝ) ≠ 0 := by exact_mod_cast (Nat.pos_iff_ne_zero.mp hn)
  rw [scaleU1_real c n h, hs, div_self hnR]
  simp

theorem map_mul_one_div_one (c : List ℝ) : c.map (fun x => x * (1 / (1 : ℝ))) = c := by
  simp

/-- Two matrices with as many columns and the same column at every index are equal. -/
theorem mat_ext (A B : List (List ℝ)) (hl : A.length = B.length)
    (h : ∀ i < A.length, col A i = col B i) : A = B := by
  apply List.ext_getElem hl
  intro i h1 h2
  have := h i h1
  simpa [col, List.getD_eq_getElem?_getD, h1, h2] using this

end RealLemmas2

section Claims8

/-- C17. After `standardize` in mode 1 without weights, a column of `X` that was not
entirely zero has `sum_j X[j,i]^2 = n` and a column that was entirely zero still is; hence a
second `standardize` on the result computes `scaleX[i] = 1` for every column and leaves `X`
as it is. -/
theorem standardize_mode1_twice (n p : Nat) (X : List (List ℝ)) (Y : List ℝ)
    (hX : X.length = p) (hcol : ∀ c ∈ X, c.length = n) :
    (∀ i < p, (∃ x ∈ col X i, x ≠ 0) →
      ((col ((DataStd.new n p true false).standardize Real.sqrt X Y []).X i).map
        (fun x => x ^ 2)).sum = (n : ℝ)) ∧
    (∀ i < p, (∀ x ∈ col X i, x = 0) →
      ∀ x ∈ col ((DataStd.new n p true false).standardize Real.sqrt X Y []).X i, x = 0) ∧
    (∀ i < p,
      arrAt (((DataStd.new n p true false).standardize Real.sqrt X Y []).ds.standardize Real.sqrt
        ((DataStd.new n p true false).standardize Real.sqrt X Y []).X
        ((DataStd.new n p true false).standardize Real.sqrt X Y []).Y []).ds.scaleX i = 1) ∧
    (((DataStd.new n p true false).standardize Real.sqrt X Y []).ds.standardize Real.sqrt
        ((DataStd.new n p true false).standardize Real.sqrt X Y []).X
        ((DataStd.new n p true false).standardize Real.sqrt X Y []).Y []).X =
      ((DataStd.new n p true false).standardize Real.sqrt X Y []).X := by
  obtain ⟨_, _, hcols⟩ := standardize_mode1 Real.sqrt (DataStd.new n p true false : DataStd ℝ)
    X Y [] rfl (by simp [DataStd.new])
  obtain ⟨h1, _, h3, _, h5, _⟩ :=
    standardize_shape Real.sqrt (DataStd.new n p true false : DataStd ℝ) X Y []
  have hxl := (standardizeX_frame Real.sqrt
    (standardizeY Real.sqrt (DataStd.new n p true false : DataStd ℝ) Y []).1 X []).2.2.2.2.2.1
  generalize hr : (DataStd.new n p true false).standardize Real.sqrt X Y [] = r at *
  have hrX : r.X.length = p := by
    rw [← hr]; simp only [DataStd.standardize]; rw [hxl, hX]
  have hp : r.ds.p = p := h3
  have hsc1 : ∀ c : List ℝ, scale1 Real.sqrt [] c = scaleU1 Real.sqrt c := by
    intro c; simp [scale1]
  have hnew : ∀ i < p, col r.X i =
      (col X i).map (fun x => x * (1 / scaleU1 Real.sqrt (col X i))) := by
    intro i hi
    have := (hcols i hi).2
    rwa [hsc1] at this
  have hlen : ∀ i < p, (col X i).length = n := fun i hi => col_length X n i hcol (by omega)
  have hA : ∀ i < p, (∃ x ∈ col X i, x ≠ 0) →
      ((col r.X i).map (fun x => x ^ 2)).sum = (n : ℝ) := by
    intro i hi hnz
    rw [hnew i hi]
    exact sumsq_scaled (col X i) n (hlen i hi) hnz
  have hB : ∀ i < p, (∀ x ∈ col X i, x = 0) → col r.X i = col X i := by
    intro i hi hz
    rw [hnew i hi, scaleU1_zero_col _ hz, map_mul_one_div_one]
  have hunit : ∀ i < p, scaleU1 Real.sqrt (col r.X i) = 1 := by
    intro i hi
    by_cases hnz : ∃ x ∈ col X i, x ≠ 0
    · have hn : 0 < n := by
        obtain ⟨x, hx, _⟩ := hnz
        have := List.length_pos_of_mem hx
        have := hlen i hi
        omega
      have hl : (col r.X i).length = n := by rw [hnew i hi]; simp [hlen i hi]
      exact scaleU1_unit_col _ n hl hn (hA i hi hnz)
    · have hz : ∀ x ∈ col X i, x = 0 := by
        intro x hx
        by_contra hx0
        exact hnz ⟨x, hx, hx0⟩
      rw [hB i hi hz]
      exact scaleU1_zero_col _ hz
  obtain ⟨_, _, hcols2⟩ := standardize_mode1 Real.sqrt r.ds r.X r.Y [] h1
    (by rw [h5, hp]; simp [DataStd.new])
  rw [hp] at hcols2
  have hxl2 := (standardizeX_frame Real.sqrt (standardizeY Real.sqrt r.ds r.Y []).1 r.X
    []).2.2.2.2.2.1
  refine ⟨hA, ?_, ?_, ?_⟩
  · intro i hi hz x hx
    rw [hB i hi hz] at hx
    exact hz x hx
  · intro i hi
    rw [(hcols2 i hi).1, hsc1, hunit i hi]
  · apply mat_ext
    · simp only [DataStd.standardize]; rw [hxl2]
    · intro i hi
      have hi' : i < p := by
        have : (r.ds.standardize Real.sqrt r.X r.Y []).X.length = r.X.length := by
          simp only [DataStd.standardize]; rw [hxl2]
        omega
      rw [(hcols2 i hi').2, hsc1, hunit i hi', map_mul_one_div_one]

/-- Witness of C17: one row and one column. -/
theorem standardize_mode1_twice_witness :
    arrAt (((DataStd.new 1 1 true false).standardize Real.sqrt [[3]] [0] []).ds.standardize
      Real.sqrt ((DataStd.new 1 1 true false).standardize Real.sqrt [[3]] [0] []).X
      ((DataStd.new 1 1 true false).standardize Real.sqrt [[3]] [0] []).Y []).ds.scaleX 0 = 1 :=
  (standardize_mode1_twice 1 1 [[3]] [0] rfl (by simp)).2.2.1 0 (by norm_num)

end Claims8

/-! ## Weights that are all one -/

section UnitWeights

/-- Two loops over columns agree when their statistics and their column maps agree on the
columns of the matrix they start from. -/
theorem genLoop_congr {α : Type} (m m' sc sc' : Option (List α → α)) (g g' : List α → List α)
    (s : DataStd α × List (List α)) (k : Nat)
    (h : ∀ i < k, m.map (fun f => f (col s.2 i)) = m'.map (fun f => f (col s.2 i)) ∧
      sc.map (fun f => f (col s.2 i)) = sc'.map (fun f => f (col s.2 i)) ∧
      g (col s.2 i) = g' (col s.2 i)) :
    forLoop k (genBody m sc g) s = forLoop k (genBody m' sc' g') s := by
  induction k with
  | zero => rfl
  | succ k ih =>
    rw [forLoop_succ, forLoop_succ, ih (fun i hi => h i (by omega))]
    have hc : col (forLoop k (genBody m' sc' g') s).2 k = col s.2 k := by
      rw [genLoop_col]; simp
    obtain ⟨h1, h2, h3⟩ := h k (by omega)
    clear h ih
    cases m <;> cases m' <;> simp at h1 <;> cases sc <;> cases sc' <;> simp at h2 <;>
      simp [genBody, hc, h1, h2, h3]

/-- Weights that are all 1 do not change a vector that is not longer than they are. -/
theorem timesSqrtWts_ones (c : List ℝ) (n : Nat) (h : c.length ≤ n) :
    timesSqrtWts Real.sqrt c (List.replicate n 1) = c := by
  induction c generalizing n with
  | nil => simp [timesSqrtWts]
  | cons a c ih =>
    cases n with
    | zero => simp at h
    | succ n =>
      have := ih n (by simpa using h)
      simp only [timesSqrtWts] at this
      simp [timesSqrtWts, List.replicate_succ, this]

/-- With `n` weights equal to 1 and with no weights `standardize` returns the same object,
`X` and `Y`, in every mode, provided that in mode 3 no column has the unguarded scale 0. -/
theorem standardize_unit_weights_agree (n p : Nat) (std icpt : Bool) (X : List (List ℝ))
    (Y : List ℝ) (hX : X.length = p) (hcol : ∀ c ∈ X, c.length = n) (hY : Y.length = n)
    (h3 : std = true → icpt = true →
      ∀ i < p, rawScale3 Real.sqrt (1 / Real.sqrt (n : ℝ)) (col X i) ≠ 0) :
    (DataStd.new n p std icpt).standardize Real.sqrt X Y (List.replicate n 1) =
      (DataStd.new n p std icpt).standardize Real.sqrt X Y [] := by
  rcases Nat.eq_zero_or_pos n with hn | hn
  · subst hn; rfl
  have hw : (List.replicate n (1 : ℝ)).length ≠ 0 := by simp; omega
  have hn0 : n ≠ 0 := by omega
  have hlen : ∀ i < p, (col X i).length = n := fun i hi => col_length X n i hcol (by omega)
  have hYeq : timesSqrtWts Real.sqrt Y (List.replicate n 1) = Y :=
    timesSqrtWts_ones Y n (le_of_eq hY)
  have hceq : ∀ i < p, timesSqrtWts Real.sqrt (col X i) (List.replicate n 1) = col X i :=
    fun i hi => timesSqrtWts_ones _ n (le_of_eq (hlen i hi))
  have hYst : standardizeY Real.sqrt (DataStd.new n p std icpt) Y (List.replicate n 1) =
      standardizeY Real.sqrt (DataStd.new n p std icpt) Y [] := by
    cases std <;> cases icpt
    · rw [standardizeY_mode0 _ _ _ _ rfl, standardizeY_mode0 _ _ _ _ rfl]
    · rw [standardizeY_mode2 _ _ _ _ rfl, standardizeY_mode2 _ _ _ _ rfl]
      simp [hw, hYeq]
    · rw [standardizeY_mode1 _ _ _ _ rfl, standardizeY_mode1 _ _ _ _ rfl]
    · rw [standardizeY_mode3 _ _ _ _ rfl, standardizeY_mode3 _ _ _ _ rfl]
      simp [hw, hYeq]
  simp only [DataStd.standardize, hYst]
  have hfl := (standardizeY_frame Real.sqrt (DataStd.new n p std icpt : DataStd ℝ) Y []).1
  have hpp := (standardizeY_frame Real.sqrt (DataStd.new n p std icpt : DataStd ℝ) Y []).2.2.1
  have hnn := (standardizeY_frame Real.sqrt (DataStd.new n p std icpt : DataStd ℝ) Y []).2.1
  generalize (standardizeY Real.sqrt (DataStd.new n p std icpt) Y []).1 = d at hfl hpp hnn
  have hdp : d.p = p := hpp
  have hdn : d.n = n := hnn
  have hXeq : standardizeX Real.sqrt d X (List.replicate n 1) = standardizeX Real.sqrt d X [] := by
    cases std <;> cases icpt
    · have hf : d.flag = 0 := hfl
      rw [standardizeX_mode0 _ _ _ _ hf, standardizeX_mode0 _ _ _ _ hf]
    · have hf : d.flag = 2 := hfl
      rw [standardizeX_mode2_any _ _ _ _ hf, standardizeX_mode2_any _ _ _ _ hf]
      apply genLoop_congr
      intro i hi
      rw [hdp] at hi
      simp [mean2, hn0, hceq i hi]
    · have hf : d.flag = 1 := hfl
      rw [standardizeX_mode1_any _ _ _ _ hf, standardizeX_mode1_any _ _ _ _ hf]
      apply genLoop_congr
      intro i hi
      rw [hdp] at hi
      simp [scale1, scaleW1, scaleU1, hn0, hceq i hi]
    · have hf : d.flag = 3 := hfl
      rw [standardizeX_mode3 _ _ _ _ hf, standardizeX_mode3 _ _ _ _ hf]
      apply genLoop_congr
      intro i hi
      rw [hdp] at hi
      have := h3 rfl rfl i hi
      rw [one_div] at this
      rw [hdn]
      simp [scale3, scaleU3, hn0, this]
  rw [hXeq]

end UnitWeights

section RealLemmas3

/-- The squares of a column times the roots of non-negative weights. -/
theorem timesSqrt_sumsq (c w : List ℝ) (hw : ∀ x ∈ w, 0 ≤ x) :
    ((timesSqrtWts Real.sqrt c w).map (fun x => x ^ 2)).sum =
      (List.zipWith (fun x wj => wj * x ^ 2) c w).sum := by
  induction c generalizing w with
  | nil => simp [timesSqrtWts]
  | cons a c ih =>
    cases w with
    | nil => simp [timesSqrtWts]
    | cons b w =>
      have hb : 0 ≤ b := hw b (by simp)
      have := ih w (fun x hx => hw x (by simp [hx]))
      simp only [timesSqrtWts] at this
      simp only [timesSqrtWts, List.zipWith_cons_cons, List.map_cons, List.sum_cons, this]
      rw [mul_pow, Real.sq_sqrt hb]
      ring

theorem length_timesSqrtWts (c w : List ℝ) (n : Nat) (hc : c.length = n) (hw : w.length = n) :
    (timesSqrtWts Real.sqrt c w).length = n := by
  simp [timesSqrtWts, hc, hw]

/-- The scale mode 1 stores with non-negative weights, over the reals. -/
theorem scaleW1_real (c w : List ℝ) (n : Nat) (hc : c.length = n) (hw : w.length = n)
    (hpos : ∀ x ∈ w, 0 ≤ x) :
    scaleW1 Real.sqrt w c =
      (if Real.sqrt ((List.zipWith (fun x wj => wj * x ^ 2) c w).sum / n) = 0 then 1
        else Real.sqrt ((List.zipWith (fun x wj => wj * x ^ 2) c w).sum / n)) := by
  rw [scaleW1, sd_n_real _ n (length_timesSqrtWts c w n hc hw), timesSqrt_sumsq c w hpos]

end RealLemmas3

section Claims9

/-- C18, the code at the failing input: in mode 3, for an all-zero column, a weight vector
of ones and an absent weight vector leave different `scaleX`. -/
theorem standardize_unit_weights_differ :
    ((DataStd.new 1 1 true true).standardize Real.sqrt [[0]] [0] [1]).ds.scaleX ≠
      ((DataStd.new 1 1 true true).standardize Real.sqrt [[0]] [0] []).ds.scaleX := by
  have h := ((standardize_mode3 Real.sqrt 1 1 [[(0 : ℝ)]] [0] [1]).2.2.2 0 (by norm_num)).2.1
  have g := ((standardize_mode3 Real.sqrt 1 1 [[(0 : ℝ)]] [0] []).2.2.2 0 (by norm_num)).2.1
  have h0 : scale3 Real.sqrt (1 / Real.sqrt ((1 : Nat) : ℝ)) [1] (col [[(0 : ℝ)]] 0) = 0 := by
    simp [scale3, rawScale3, vnorm, vsum, col]
  have g1 : scale3 Real.sqrt (1 / Real.sqrt ((1 : Nat) : ℝ)) [] (col [[(0 : ℝ)]] 0) = 1 := by
    simp [scale3, scaleU3, rawScale3, vnorm, vsum, col]
  intro heq
  rw [heq, g, g1] at h
  rw [h0] at h
  exact one_ne_zero h

/-- Counterexample to C19 as stated: in mode 1 with weights the scale stored for an all-zero
column is 1, not the weighted root-mean-square 0. -/
theorem standardize_mode1_weighted_zero_column :
    arrAt ((DataStd.new 1 1 true false).standardize Real.sqrt [[0]] [0] [1]).ds.scaleX 0 ≠
      Real.sqrt ((List.zipWith (fun x wj => wj * x ^ 2) [(0 : ℝ)] [1]).sum / ((1 : Nat) : ℝ)) := by
  have h := ((standardize_mode1 Real.sqrt (DataStd.new 1 1 true false : DataStd ℝ)
    [[0]] [0] [1] rfl (by simp [DataStd.new])).2.2 0 (by simp [DataStd.new])).1
  rw [h]
  simp [scale1, scaleW1, sd_n, vnorm, vsum, timesSqrtWts, col]

/-- C19, amended. For `X` of `n > 0` rows and `p` columns and `n` non-negative weights: in
mode 3 `meanX[i]` is the unweighted column mean, `scaleX[i]` the unweighted
`sqrt(sum_j X[j,i]^2 / n)` and column `i` the column divided by it, none of them depending on
the weights, while `meanY` is `(sum_j Y[j] * sqrt(w_j)) / n`; in mode 1 `scaleX[i]` is
`sqrt(sum_j w_j * X[j,i]^2 / n)`, replaced by 1 when that value is exactly 0; in mode 2
`meanX[i]` is `(sum_j X[j,i] * sqrt(w_j)) / n`. -/
theorem standardize_weighted_statistics (n p : Nat) (X : List (List ℝ)) (Y wts : List ℝ)
    (hn : 0 < n) (hX : X.length = p) (hcol : ∀ c ∈ X, c.length = n) (hY : Y.length = n)
    (hw : wts.length = n) (hpos : ∀ w ∈ wts, 0 ≤ w) :
    (∀ i < p,
      arrAt ((DataStd.new n p true true).standardize Real.sqrt X Y wts).ds.meanX i =
        (col X i).sum / n ∧
      arrAt ((DataStd.new n p true true).standardize Real.sqrt X Y wts).ds.scaleX i =
        Real.sqrt (((col X i).map (fun x => x ^ 2)).sum / n) ∧
      col ((DataStd.new n p true true).standardize Real.sqrt X Y wts).X i =
        (col X i).map (fun x => x /
          arrAt ((DataStd.new n p true true).standardize Real.sqrt X Y wts).ds.scaleX i)) ∧
    ((DataStd.new n p true true).standardize Real.sqrt X Y wts).ds.meanY =
      (List.zipWith (fun y wj => y * Real.sqrt wj) Y wts).sum / n ∧
    (∀ i < p,
      arrAt ((DataStd.new n p true false).standardize Real.sqrt X Y wts).ds.scaleX i =
        (if Real.sqrt ((List.zipWith (fun x wj => wj * x ^ 2) (col X i) wts).sum / n) = 0 then 1
          else Real.sqrt ((List.zipWith (fun x wj => wj * x ^ 2) (col X i) wts).sum / n))) ∧
    (∀ i < p,
      arrAt ((DataStd.new n p false true).standardize Real.sqrt X Y wts).ds.meanX i =
        (List.zipWith (fun x wj => x * Real.sqrt wj) (col X i) wts).sum / n) := by
  have hwl : wts.length ≠ 0 := by omega
  have hlen : ∀ i < p, (col X i).length = n := fun i hi => col_length X n i hcol (by omega)
  obtain ⟨_, _, hmY, hcols3⟩ := standardize_mode3 Real.sqrt n p X Y wts
  refine ⟨?_, ?_, ?_, ?_⟩
  · intro i hi
    obtain ⟨hm, hs, hc⟩ := hcols3 i hi
    have hsc : scale3 Real.sqrt (1 / Real.sqrt (n : ℝ)) wts (col X i) =
        Real.sqrt (((col X i).map (fun x => x ^ 2)).sum / n) := by
      simp only [scale3, if_pos hwl, rawScale3_real]
    refine ⟨?_, ?_, ?_⟩
    · rw [hm, vmean, vsum, hlen i hi]
    · rw [hs, hsc]
    · rw [hc, hs]
  · rw [hmY, if_pos hwl, vmean, vsum, length_timesSqrtWts Y wts n hY hw]
    rfl
  · intro i hi
    have h := ((standardize_mode1 Real.sqrt (DataStd.new n p true false : DataStd ℝ)
      X Y wts rfl (by simp [DataStd.new])).2.2 i hi).1
    rw [h]
    simp only [scale1, if_pos hwl]
    exact scaleW1_real (col X i) wts n (hlen i hi) hw hpos
  · intro i hi
    rw [standardize_mode2_meanX Real.sqrt n p X Y wts i hi]
    simp only [mean2, if_pos hwl]
    rw [vmean, vsum, length_timesSqrtWts (col X i) wts n (hlen i hi) hw]
    rfl

/-- Witness of C19, amended: one row, one column, weight 4. -/
theorem standardize_weighted_statistics_witness :
    ((DataStd.new 1 1 true true).standardize Real.sqrt [[3]] [2] [4]).ds.meanY =
      (List.zipWith (fun y wj => y * Real.sqrt wj) [(2 : ℝ)] [4]).sum / ((1 : Nat) : ℝ) :=
  (standardize_weighted_statistics 1 1 [[3]] [2] [4] (by norm_num) rfl (by simp) rfl rfl
    (by simp)).2.1

end Claims9

/-! ## The coefficient path -/

section PathLemmas
variable {α : Type} [Field α]

/-- The lookup behind `SpMat.coeff`, on a list of entries. -/
theorem coeff_entries_append (rows cols : Nat) (l₁ l₂ : List (Nat × Nat × α)) (r c : Nat) :
    (SpMat.mk rows cols (l₁ ++ l₂)).coeff r c =
      if (l₁.find? (fun e => e.1 == r && e.2.1 == c)).isSome
      then (SpMat.mk rows cols l₁).coeff r c else (SpMat.mk rows cols l₂).coeff r c := by
  simp only [SpMat.coeff, List.find?_append]
  cases h : l₁.find? (fun e => e.1 == r && e.2.1 == c) <;> simp

omit [Field α] in
theorem find_none_of_col_ne (l : List (Nat × Nat × α)) (r c : Nat)
    (h : ∀ e ∈ l, e.2.1 ≠ c) : l.find? (fun e => e.1 == r && e.2.1 == c) = none := by
  rw [List.find?_eq_none]
  intro e he hc
  simp only [Bool.and_eq_true, beq_iff_eq] at hc
  exact h e he hc.2

omit [Field α] in
theorem insert_entries (b : SpMat α) (row col : Nat) (v : α) :
    (b.insert row col v).entries = b.entries ++ [(row, col, v)] ∧
    (b.insert row col v).rows = b.rows ∧ (b.insert row col v).cols = b.cols := by
  simp [SpMat.insert]

omit [Field α] in
theorem foldl_insert (l : List (Nat × α)) (add col : Nat) (b : SpMat α) :
    (l.foldl (fun b e => b.insert (e.1 + add) col e.2) b).entries =
      b.entries ++ l.map (fun e => (e.1 + add, col, e.2)) ∧
    (l.foldl (fun b e => b.insert (e.1 + add) col e.2) b).rows = b.rows ∧
    (l.foldl (fun b e => b.insert (e.1 + add) col e.2) b).cols = b.cols := by
  induction l generalizing b with
  | nil => simp
  | cons e l ih =>
    obtain ⟨h1, h2, h3⟩ := ih (b.insert (e.1 + add) col e.2)
    simp only [List.foldl_cons, h1, h2, h3]
    simp [SpMat.insert]

omit [Field α] in
/-- What `write_beta_matrix` appends. -/
theorem write_beta_matrix_entries (b : SpMat α) (col : Nat) (beta0 : α) (coef : SpVec α)
    (startatzero : Bool) :
    (write_beta_matrix b col beta0 coef startatzero).entries =
      b.entries ++
        (if startatzero then coef.entries.map (fun e => (e.1 + 0, col, e.2))
          else (0, col, beta0) :: coef.entries.map (fun e => (e.1 + 1, col, e.2))) ∧
    (write_beta_matrix b col beta0 coef startatzero).rows = b.rows ∧
    (write_beta_matrix b col beta0 coef startatzero).cols = b.cols := by
  cases startatzero with
  | true =>
    simp only [write_beta_matrix]
    simpa using foldl_insert coef.entries 0 col b
  | false =>
    simp only [write_beta_matrix]
    obtain ⟨h1, h2, h3⟩ := foldl_insert coef.entries 1 col (b.insert 0 col beta0)
    simp only [Bool.not_false, if_true] at h1 h2 h3 ⊢
    rw [h1, h2, h3]
    simp [SpMat.insert]

/-- Reading the entries `write_beta_matrix` makes from a sparse vector, shifted by `add`
rows. -/
theorem coeff_shifted (rows cols : Nat) (l : List (Nat × α)) (add col r : Nat) :
    (SpMat.mk rows cols (l.map (fun e => (e.1 + add, col, e.2)))).coeff (r + add) col =
      (SpVec.mk rows l).coeff r := by
  induction l with
  | nil => simp [SpMat.coeff, SpVec.coeff]
  | cons e l ih =>
    obtain ⟨j, v⟩ := e
    simp only [SpMat.coeff, SpVec.coeff, List.map_cons, List.find?_cons] at ih ⊢
    by_cases h : j = r
    · subst h; simp
    · have h1 : (j + add == r + add) = false := by simp [h]
      have h2 : (j == r) = false := by simp [h]
      simp only [h1, h2, Bool.false_and]
      exact ih

omit [Field α] in
theorem find_shifted_zero (l : List (Nat × α)) (col c : Nat) :
    (l.map (fun e => (e.1 + 1, col, e.2))).find? (fun e => e.1 == 0 && e.2.1 == c) = none := by
  rw [List.find?_eq_none]
  intro e he
  obtain ⟨e', _, rfl⟩ := List.mem_map.mp he
  simp

/-- The column `write_beta_matrix` writes with `startatzero = false`. -/
theorem coeff_new_column (rows cols : Nat) (beta0 : α) (coef : SpVec α) (col r : Nat) :
    (SpMat.mk rows cols
        ((0, col, beta0) :: coef.entries.map (fun e => (e.1 + 1, col, e.2)))).coeff r col =
      if r = 0 then beta0 else coef.coeff (r - 1) := by
  cases r with
  | zero => simp [SpMat.coeff]
  | succ k =>
    have h := coeff_shifted rows cols coef.entries 1 col k
    simp only [SpMat.coeff, List.find?_cons] at h ⊢
    have h1 : ((0 : Nat) == k + 1) = false := by simp
    simp only [h1, Bool.false_and, h]
    simp [SpVec.coeff]

end PathLemmas

section PathLoop
variable {α : Type} [Field α]

theorem coeff_of_entries (m : SpMat α) (l : List (Nat × Nat × α)) (h : m.entries = l)
    (r c : Nat) : m.coeff r c = (SpMat.mk 0 0 l).coeff r c := by
  simp [SpMat.coeff, h]

/-- Appending entries of other columns does not change a column. -/
theorem coeff_append_other (l₁ l₂ : List (Nat × Nat × α)) (r c : Nat)
    (h : ∀ e ∈ l₂, e.2.1 ≠ c) :
    (SpMat.mk 0 0 (l₁ ++ l₂)).coeff r c = (SpMat.mk 0 0 l₁).coeff r c := by
  rw [coeff_entries_append]
  split
  · rfl
  · rename_i hn
    have h1 : l₁.find? (fun e => e.1 == r && e.2.1 == c) = none := by
      cases hf : l₁.find? (fun e => e.1 == r && e.2.1 == c) with
      | none => rfl
      | some e => simp [hf] at hn
    simp [SpMat.coeff, h1, find_none_of_col_ne l₂ r c h]

/-- Appending to entries of other columns: the column read is the appended one. -/
theorem coeff_append_new (l₁ l₂ : List (Nat × Nat × α)) (r c : Nat)
    (h : ∀ e ∈ l₁, e.2.1 ≠ c) :
    (SpMat.mk 0 0 (l₁ ++ l₂)).coeff r c = (SpMat.mk 0 0 l₂).coeff r c := by
  rw [coeff_entries_append, find_none_of_col_ne l₁ r c h]
  simp

theorem oem_loop_body_beta {σ : Type} (S : Solver σ α) (P : Prepared σ α) (lambda : List α)
    (maxit : Int) (i : Nat) (st : LoopState σ α) :
    (oem_loop_body S P lambda maxit i st).beta =
      (if !P.fullbetamat then
        write_beta_matrix st.beta i (oem_recovered S P lambda maxit i st).1
          (oem_recovered S P lambda maxit i st).2 false
      else write_beta_matrix st.beta i 0 (oem_gamma S P lambda maxit i st) true) := by
  cases h : P.fullbetamat <;> simp [oem_loop_body, oem_recovered, oem_gamma, h]

/-- The path after `k` iterations, without augmentation: its shape is that of the start,
its entries lie in the columns below `k`, and column `i < k` holds what iteration `i`
recovered. -/
theorem oem_loop_path {σ : Type} (S : Solver σ α) (P : Prepared σ α) (lambda : List α)
    (maxit : Int) (st0 : LoopState σ α) (hfb : P.fullbetamat = false)
    (h0 : st0.beta.entries = []) (k : Nat) :
    (forLoop k (oem_loop_body S P lambda maxit) st0).beta.rows = st0.beta.rows ∧
    (forLoop k (oem_loop_body S P lambda maxit) st0).beta.cols = st0.beta.cols ∧
    (∀ e ∈ (forLoop k (oem_loop_body S P lambda maxit) st0).beta.entries, e.2.1 < k) ∧
    ∀ i < k, ∀ r,
      (forLoop k (oem_loop_body S P lambda maxit) st0).beta.coeff r i =
        if r = 0 then
          (oem_recovered S P lambda maxit i (forLoop i (oem_loop_body S P lambda maxit) st0)).1
        else
          (oem_recovered S P lambda maxit i
            (forLoop i (oem_loop_body S P lambda maxit) st0)).2.coeff (r - 1) := by
  induction k with
  | zero =>
    refine ⟨rfl, rfl, ?_, ?_⟩
    · intro e he
      simp [forLoop, h0] at he
    · intro i hi
      omega
  | succ k ih =>
    obtain ⟨i1, i2, i3, i4⟩ := ih
    rw [forLoop_succ]
    have hb := oem_loop_body_beta S P lambda maxit k (forLoop k (oem_loop_body S P lambda maxit) st0)
    simp only [hfb, Bool.not_false, if_true] at hb
    obtain ⟨w1, w2, w3⟩ := write_beta_matrix_entries
      (forLoop k (oem_loop_body S P lambda maxit) st0).beta k
      (oem_recovered S P lambda maxit k (forLoop k (oem_loop_body S P lambda maxit) st0)).1
      (oem_recovered S P lambda maxit k (forLoop k (oem_loop_body S P lambda maxit) st0)).2 false
    simp only [Bool.false_eq_true, if_false] at w1
    rw [← hb] at w1 w2 w3
    refine ⟨w2.trans i1, w3.trans i2, ?_, ?_⟩
    · intro e he
      rw [w1] at he
      rcases List.mem_append.mp he with h | h
      · have := i3 e h
        omega
      · rcases List.mem_cons.mp h with h | h
        · subst h; simp
        · obtain ⟨e', _, rfl⟩ := List.mem_map.mp h
          simp
    · intro i hi r
      rw [coeff_of_entries _ _ w1]
      by_cases hik : i = k
      · subst hik
        rw [coeff_append_new _ _ _ _ (fun e he => Nat.ne_of_lt (i3 e he))]
        exact coeff_new_column 0 0 _ _ i r
      · rw [coeff_append_other]
        · rw [← coeff_of_entries _ _ rfl]
          exact i4 i (by omega) r
        · intro e he
          rcases List.mem_cons.mp he with h | h
          · subst h; simpa using Ne.symm hik
          · obtain ⟨e', _, rfl⟩ := List.mem_map.mp h
            simpa using Ne.symm hik

/-- A stored entry of a well-formed sparse vector is what its index reads. -/
theorem coeff_of_mem (p : Nat) (l : List (Nat × α)) (h : (l.map Prod.fst).Pairwise (· < ·))
    (e : Nat × α) (he : e ∈ l) : (SpVec.mk p l).coeff e.1 = e.2 := by
  induction l with
  | nil => simp at he
  | cons a l ih =>
    obtain ⟨j, v⟩ := a
    simp only [List.map_cons, List.pairwise_cons, List.mem_map, forall_exists_index, and_imp,
      forall_apply_eq_imp_iff₂] at h
    rw [coeff_cons]
    rcases List.mem_cons.mp he with h1 | h1
    · subst h1; simp
    · have hlt := h.1 e h1
      rw [if_neg (by omega)]
      exact ih h.2 h1

end PathLoop

section Driver3
variable {α : Type} [Field α] [DecidableEq α]

/-- A run with a constructed solver, in terms of `oem_start` and the loop. -/
theorem oem_fit_eq_start {σ : Type} (S : Solver σ α) (sqrt exp log : α → α)
    (xx : NumericMatrix α) (yy : List α) (family : String) (lambda_ : List α) (nlambda_ : Nat)
    (r : α) (pf : List α) (std icpt : Bool) (opts : Opts α) (s0 : σ)
    (hs : (oem_prepare S sqrt xx yy family pf std icpt opts).solver = some s0) :
    (oem_fit S sqrt exp log xx yy family lambda_ nlambda_ r pf std icpt opts).outcome =
      Outcome.returned
        ⟨(oem_start S exp log (oem_prepare S sqrt xx yy family pf std icpt opts) lambda_
            nlambda_ r s0).1,
          (forLoop
            (oem_start S exp log (oem_prepare S sqrt xx yy family pf std icpt opts) lambda_
              nlambda_ r s0).1.length
            (oem_loop_body S (oem_prepare S sqrt xx yy family pf std icpt opts)
              (oem_start S exp log (oem_prepare S sqrt xx yy family pf std icpt opts) lambda_
                nlambda_ r s0).1 opts.maxit)
            (oem_start S exp log (oem_prepare S sqrt xx yy family pf std icpt opts) lambda_
              nlambda_ r s0).2).beta,
          (forLoop
            (oem_start S exp log (oem_prepare S sqrt xx yy family pf std icpt opts) lambda_
              nlambda_ r s0).1.length
            (oem_loop_body S (oem_prepare S sqrt xx yy family pf std icpt opts)
              (oem_start S exp log (oem_prepare S sqrt xx yy family pf std icpt opts) lambda_
                nlambda_ r s0).1 opts.maxit)
            (oem_start S exp log (oem_prepare S sqrt xx yy family pf std icpt opts) lambda_
              nlambda_ r s0).2).niter⟩ := by
  simp only [oem_fit, hs, oem_start]

theorem oem_prepare_fullbetamat {σ : Type} (S : Solver σ α) (sqrt : α → α)
    (xx : NumericMatrix α) (yy : List α) (family : String) (pf : List α) (std icpt : Bool)
    (opts : Opts α) :
    (oem_prepare S sqrt xx yy family pf std icpt opts).fullbetamat =
      (family != "gaussian" && icpt) ∧
    (oem_prepare S sqrt xx yy family pf std icpt opts).p = xx.ncol := ⟨rfl, rfl⟩

end Driver3

section Claims10
variable {α : Type} [Field α] [DecidableEq α]

/-- C11. With a constructed solver, for `p` predictors and the `m` penalties used, the
path `oem_fit` returns has `p + 1` rows and `m` columns; the run is not augmented, and for
every penalty index `i` column `i` reads the recovered `beta0` in row 0 and the recovered
coefficient of index `row - 1` in every other row, so each stored entry `(j, v)` of the
recovered vector is in row `j + 1` and the rows of no stored entry read zero. -/
theorem oem_fit_path {σ : Type} (S : Solver σ α) (sqrt exp log : α → α)
    (xx : NumericMatrix α) (yy : List α) (family : String) (lambda_ : List α) (nlambda_ : Nat)
    (r : α) (pf : List α) (std icpt : Bool) (opts : Opts α) (s0 : σ)
    (hs : (oem_prepare S sqrt xx yy family pf std icpt opts).solver = some s0) :
    ∃ res : FitResult α,
      (oem_fit S sqrt exp log xx yy family lambda_ nlambda_ r pf std icpt opts).outcome =
        Outcome.returned res ∧
      res.beta.rows = xx.ncol + 1 ∧
      res.beta.cols = res.lambda.length ∧
      (lambda_ ≠ [] → res.lambda = lambda_) ∧
      (oem_prepare S sqrt xx yy family pf std icpt opts).fullbetamat = false ∧
      ∀ i < res.lambda.length,
        (∀ row, res.beta.coeff row i =
          if row = 0 then
            (oem_recovered S (oem_prepare S sqrt xx yy family pf std icpt opts) res.lambda
              opts.maxit i
              (forLoop i
                (oem_loop_body S (oem_prepare S sqrt xx yy family pf std icpt opts) res.lambda
                  opts.maxit)
                (oem_start S exp log (oem_prepare S sqrt xx yy family pf std icpt opts) lambda_
                  nlambda_ r s0).2)).1
          else
            (oem_recovered S (oem_prepare S sqrt xx yy family pf std icpt opts) res.lambda
              opts.maxit i
              (forLoop i
                (oem_loop_body S (oem_prepare S sqrt xx yy family pf std icpt opts) res.lambda
                  opts.maxit)
                (oem_start S exp log (oem_prepare S sqrt xx yy family pf std icpt opts) lambda_
                  nlambda_ r s0).2)).2.coeff (row - 1)) ∧
        ((oem_recovered S (oem_prepare S sqrt xx yy family pf std icpt opts) res.lambda
            opts.maxit i
            (forLoop i
              (oem_loop_body S (oem_prepare S sqrt xx yy family pf std icpt opts) res.lambda
                opts.maxit)
              (oem_start S exp log (oem_prepare S sqrt xx yy family pf std icpt opts) lambda_
                nlambda_ r s0).2)).2.WF →
          ∀ e ∈ (oem_recovered S (oem_prepare S sqrt xx yy family pf std icpt opts) res.lambda
            opts.maxit i
            (forLoop i
              (oem_loop_body S (oem_prepare S sqrt xx yy family pf std icpt opts) res.lambda
                opts.maxit)
              (oem_start S exp log (oem_prepare S sqrt xx yy family pf std icpt opts) lambda_
                nlambda_ r s0).2)).2.entries,
            res.beta.coeff (e.1 + 1) i = e.2) := by
  obtain ⟨_, hg⟩ := oem_prepare_solver S sqrt xx yy family pf std icpt opts s0 hs
  have hfb : (oem_prepare S sqrt xx yy family pf std icpt opts).fullbetamat = false := by
    rw [(oem_prepare_fullbetamat S sqrt xx yy family pf std icpt opts).1, hg]
    simp
  have hout := oem_fit_eq_start S sqrt exp log xx yy family lambda_ nlambda_ r pf std icpt
    opts s0 hs
  generalize hP : oem_prepare S sqrt xx yy family pf std icpt opts = P at *
  generalize hq : oem_start S exp log P lambda_ nlambda_ r s0 = q at *
  have hq0 : q.2.beta.entries = [] := by rw [← hq]; rfl
  have hqr : q.2.beta.rows = P.p + 1 := by rw [← hq]; rfl
  have hqc : q.2.beta.cols = q.1.length := by rw [← hq]; rfl
  have hp : P.p = xx.ncol := by rw [← hP]; rfl
  obtain ⟨l1, l2, _, l4⟩ := oem_loop_path S P q.1 opts.maxit q.2 hfb hq0 q.1.length
  refine ⟨_, hout, ?_, ?_, ?_, hfb, ?_⟩
  · show (forLoop q.1.length (oem_loop_body S P q.1 opts.maxit) q.2).beta.rows = xx.ncol + 1
    rw [l1, hqr, hp]
  · show (forLoop q.1.length (oem_loop_body S P q.1 opts.maxit) q.2).beta.cols = q.1.length
    rw [l2, hqc]
  · intro hne
    show q.1 = lambda_
    have : ¬ lambda_.length < 1 := by
      cases lambda_ with
      | nil => exact absurd rfl hne
      | cons a l => simp
    rw [← hq]
    simp [oem_start, this]
  · intro i hi
    refine ⟨fun row => l4 i hi row, ?_⟩
    intro hwf e he
    have h := l4 i hi (e.1 + 1)
    simp only [Nat.add_one_ne_zero, if_false, Nat.add_sub_cancel] at h
    rw [show (FitResult.mk q.1
      (forLoop q.1.length (oem_loop_body S P q.1 opts.maxit) q.2).beta
      (forLoop q.1.length (oem_loop_body S P q.1 opts.maxit) q.2).niter).beta =
      (forLoop q.1.length (oem_loop_body S P q.1 opts.maxit) q.2).beta from rfl, h]
    exact coeff_of_mem _ _ hwf.1 e he

/-- Witness of C11: three penalties on three rows and one column. -/
theorem oem_fit_path_witness :
    ∃ res : FitResult ℚ,
      (oem_fit (demoSolver 1) Rat.sqrt id id ⟨3, 1, [[1, 2, 3]]⟩ [1, 2, 3] "gaussian"
        [10, 1, 1 / 10] 0 0 [1] true true ⟨100, 5, 0, 0⟩).outcome = Outcome.returned res ∧
      res.beta.rows = 1 + 1 ∧ res.beta.cols = res.lambda.length :=
  (oem_fit_path (demoSolver 1) Rat.sqrt id id ⟨3, 1, [[1, 2, 3]]⟩ [1, 2, 3] "gaussian"
    [10, 1, 1 / 10] 0 0 [1] true true ⟨100, 5, 0, 0⟩ () (by simp [oem_prepare])).imp
    (fun _ h => ⟨h.1, h.2.1, h.2.2.1⟩)

/-- The family dispatch of `oem_fit` for a family other than `"gaussian"`: the transform is
the one constructed with `standardize = false` and `intercept = false` (mode 0); and if an
intercept was requested the design matrix is a column of `n` ones followed by the columns of
the original `X`, the penalty factors are 0 followed by the original ones, and the body of
the loop, were it entered, writes the solver's vector as it is, with `beta0 = 0` and without
`recover`. -/
theorem oem_prepare_non_gaussian {σ : Type} (S : Solver σ α) (sqrt : α → α)
    (xx : NumericMatrix α) (yy : List α) (family : String) (pf : List α) (std icpt : Bool)
    (opts : Opts α) (hfam : family ≠ "gaussian") :
    (oem_prepare S sqrt xx yy family pf std icpt opts).datstd =
      DataStd.new xx.nrow (xx.ncol + (if icpt then 1 else 0)) false false ∧
    (oem_prepare S sqrt xx yy family pf std icpt opts).datstd.flag = 0 ∧
    (icpt = true →
      (oem_prepare S sqrt xx yy family pf std icpt opts).X =
        List.replicate xx.nrow 1 :: xx.data ∧
      (oem_prepare S sqrt xx yy family pf std icpt opts).penalty_factor = 0 :: pf ∧
      (oem_prepare S sqrt xx yy family pf std icpt opts).fullbetamat = true ∧
      ∀ (lambda : List α) (maxit : Int) (i : Nat) (st : LoopState σ α),
        (oem_loop_body S (oem_prepare S sqrt xx yy family pf std icpt opts) lambda maxit i
            st).beta =
          write_beta_matrix st.beta i 0
            (oem_gamma S (oem_prepare S sqrt xx yy family pf std icpt opts) lambda maxit i st)
            true ∧
        ((∀ e ∈ st.beta.entries, e.2.1 ≠ i) → ∀ j,
          (oem_loop_body S (oem_prepare S sqrt xx yy family pf std icpt opts) lambda maxit i
              st).beta.coeff j i =
            (oem_gamma S (oem_prepare S sqrt xx yy family pf std icpt opts) lambda maxit i
              st).coeff j)) := by
  have hb : (family != "gaussian") = true := by simp [hfam]
  have hf0 : ∀ q : Nat, (DataStd.new xx.nrow q false false : DataStd α).flag = 0 := fun _ => rfl
  have hst : ∀ (q : Nat) (X : List (List α)),
      (DataStd.new xx.nrow q false false : DataStd α).standardize sqrt X yy [] =
        ⟨DataStd.new xx.nrow q false false, X, yy⟩ := by
    intro q X
    simp only [DataStd.standardize, standardizeY_mode0 sqrt _ yy [] (hf0 q),
      standardizeX_mode0 sqrt _ X [] (hf0 q)]
  have hds : (oem_prepare S sqrt xx yy family pf std icpt opts).datstd =
      DataStd.new xx.nrow (xx.ncol + (if icpt then 1 else 0)) false false := by
    simp only [oem_prepare, hb, if_true, Bool.true_and, hst]
  refine ⟨hds, by rw [hds]; rfl, ?_⟩
  intro hi
  subst hi
  have hfb : (oem_prepare S sqrt xx yy family pf std true opts).fullbetamat = true := by
    rw [(oem_prepare_fullbetamat S sqrt xx yy family pf std true opts).1, hb]; rfl
  refine ⟨?_, ?_, hfb, ?_⟩
  · simp only [oem_prepare, hb, if_true, Bool.true_and, hst, Bool.and_self]
  · simp only [oem_prepare, hb, if_true, Bool.and_self]
  · intro lambda maxit i st
    have hbeta := oem_loop_body_beta S (oem_prepare S sqrt xx yy family pf std true opts)
      lambda maxit i st
    simp only [hfb, Bool.not_true, Bool.false_eq_true, if_false] at hbeta
    refine ⟨hbeta, ?_⟩
    intro hcol j
    obtain ⟨w1, _, _⟩ := write_beta_matrix_entries st.beta i 0
      (oem_gamma S (oem_prepare S sqrt xx yy family pf std true opts) lambda maxit i st) true
    simp only [if_true] at w1
    rw [hbeta, coeff_of_entries _ _ w1, coeff_append_new _ _ _ _ hcol]
    have := coeff_shifted 0 0
      (oem_gamma S (oem_prepare S sqrt xx yy family pf std true opts) lambda maxit i st).entries
      0 i j
    simp only [Nat.add_zero] at this ⊢
    rw [this]
    simp [SpVec.coeff]

/-- For a family other than `"gaussian"` no solver is constructed, whatever the shape, and
the run ends at the first call through the pointer. -/
theorem non_gaussian_solver_null {σ : Type} (S : Solver σ α) (sqrt exp log : α → α)
    (xx : NumericMatrix α) (yy : List α) (family : String) (lambda_ : List α) (nlambda_ : Nat)
    (r : α) (pf : List α) (std icpt : Bool) (opts : Opts α) (hfam : family ≠ "gaussian") :
    (oem_prepare S sqrt xx yy family pf std icpt opts).solver = none ∧
    oem_fit S sqrt exp log xx yy family lambda_ nlambda_ r pf std icpt opts =
      { trace := []
        outcome := Outcome.nullSolverCall
          (if lambda_.length < 1 then Call.get_lambda_zero
            else Call.init (arrAt lambda_ 0 * (xx.nrow : α) / 1)) } := by
  have hsol : (oem_prepare S sqrt xx yy family pf std icpt opts).solver = none := by
    simp only [oem_prepare, hfam, if_false]
    split_ifs <;> rfl
  have hy := oem_prepare_scaleY S sqrt xx yy family pf std icpt opts
  refine ⟨hsol, ?_⟩
  simp only [oem_fit, hsol, hy, ilambdaOf, oem_prepare_n]
  split_ifs <;> rfl

/-- C12, the code at the failing input: three rows and one column (`n > 2p`), the binomial
family, `standardize = intercept = true`.  The dispatch does construct the transform in
mode 0, puts the column of ones before `X` and the factor 0 before the penalty factors; but
the constructor call for the binomial family is commented out, the solver pointer stays
`NULL`, and the run ends by calling `init` (or `get_lambda_zero`, when no penalty is
supplied) through it: the augmented matrix is handed to no solver, no call is made and
nothing is written to the path. -/
theorem oem_fit_non_gaussian_null_solver {σ : Type} (S : Solver σ ℝ) :
    (oem_prepare S Real.sqrt ⟨3, 1, [[1, 2, 3]]⟩ [1, 2, 3] "binomial" [1] true true
      ⟨100, 5, 0, 0⟩).datstd.flag = 0 ∧
    (oem_prepare S Real.sqrt ⟨3, 1, [[1, 2, 3]]⟩ [1, 2, 3] "binomial" [1] true true
      ⟨100, 5, 0, 0⟩).X = [[1, 1, 1], [1, 2, 3]] ∧
    (oem_prepare S Real.sqrt ⟨3, 1, [[1, 2, 3]]⟩ [1, 2, 3] "binomial" [1] true true
      ⟨100, 5, 0, 0⟩).penalty_factor = [0, 1] ∧
    (oem_prepare S Real.sqrt ⟨3, 1, [[1, 2, 3]]⟩ [1, 2, 3] "binomial" [1] true true
      ⟨100, 5, 0, 0⟩).solver = none ∧
    oem_fit S Real.sqrt Real.exp Real.log ⟨3, 1, [[1, 2, 3]]⟩ [1, 2, 3] "binomial" [1] 0 0 [1]
        true true ⟨100, 5, 0, 0⟩ =
      { trace := [], outcome := Outcome.nullSolverCall (Call.init 3) } ∧
    oem_fit S Real.sqrt Real.exp Real.log ⟨3, 1, [[1, 2, 3]]⟩ [1, 2, 3] "binomial" [] 5
        (1 / 100) [1] true true ⟨100, 5, 0, 0⟩ =
      { trace := [], outcome := Outcome.nullSolverCall Call.get_lambda_zero } := by
  obtain ⟨g1, g2, g3⟩ := oem_prepare_non_gaussian S Real.sqrt ⟨3, 1, [[1, 2, 3]]⟩ [1, 2, 3]
    "binomial" [1] true true ⟨100, 5, 0, 0⟩ (by decide)
  obtain ⟨x1, x2, _, _⟩ := g3 rfl
  obtain ⟨n1, n2⟩ := non_gaussian_solver_null S Real.sqrt Real.exp Real.log
    ⟨3, 1, [[1, 2, 3]]⟩ [1, 2, 3] "binomial" [1] 0 0 [1] true true ⟨100, 5, 0, 0⟩ (by decide)
  obtain ⟨_, n3⟩ := non_gaussian_solver_null S Real.sqrt Real.exp Real.log
    ⟨3, 1, [[1, 2, 3]]⟩ [1, 2, 3] "binomial" [] 5 (1 / 100) [1] true true ⟨100, 5, 0, 0⟩
    (by decide)
  refine ⟨g2, ?_, x2, n1, ?_, ?_⟩
  · rw [x1]; simp [List.replicate]
  · rw [n2]; norm_num [arrAt]
  · rw [n3]; simp

end Claims10

end OEM
